import Mathlib

/-!
Verification development for the knowledge retrieval and ranking engine of
the Proyecto_IA repository (src/knowledge_base.py, src/ml_engine.py).

The Python code is shallowly embedded: SQLite rows become Lean structures,
the sklearn `TfidfVectorizer` configuration and its document-frequency
pruning are modelled exactly (`min_df`, proportional `max_df`, unigrams and
bigrams over the `\w\w+` token pattern), tf-idf weights use the real-valued
smooth idf `log((1+n)/(1+df)) + 1`, and cosine similarity is the usual
dot-product-over-norms formula with sklearn's zero-vector convention
(a zero vector yields similarity 0, which coincides with Lean's x/0 = 0).
Python exceptions are modelled with `Option`/`Except`; every `try/except`
block of the source becomes an explicit match on those.

Notes on deliberate modelling simplifications, none of which affects any
theorem below:
* Case mapping and the `\w` character class are modelled for ASCII (plus an
  explicit table for the Spanish accented letters handled by
  `strip_accents='unicode'`); all concrete corpora used below are ASCII.
* `max_features=10000` of the knowledge-base vectorizer only truncates
  vocabularies larger than 10000 terms; it is omitted because no statement
  below depends on similarity values of corpora that large.
* The `semantic_vectors` cache table written by `_update_semantic_vector`
  is write-only in the source (never read by any search path), so it is not
  modelled.
-/

namespace Proyecto

/-! ## Text processing: sklearn tokenization (`token_pattern = \w\w+`, `ngram_range=(1,2)`) -/

/-- Python/sklearn lowercasing (`lowercase=True`); ASCII case mapping. -/
def lower_str (s : String) : String := String.mk (s.data.map Char.toLower)

/-- sklearn `strip_accents='unicode'`: NFKD-decompose and drop combining
marks.  Modelled by an explicit table for the Spanish accented letters;
identity on the ASCII range, which unicode accent stripping also fixes. -/
def strip_accent_char (c : Char) : Char :=
  if c = 'á' then 'a' else if c = 'é' then 'e' else if c = 'í' then 'i'
  else if c = 'ó' then 'o' else if c = 'ú' then 'u' else if c = 'ü' then 'u'
  else if c = 'ñ' then 'n' else c

/-- A character matched by the regex class `\w` (ASCII letters, digits, underscore). -/
def isWordChar (c : Char) : Bool := c.isAlphanum || c == '_'

/-- Maximal runs of `\w` characters of a character list (the matches of
`\b\w+\b`), accumulator-based single pass. -/
def wordRunsAux : List Char → List Char → List (List Char)
  | [], acc => if acc = [] then [] else [acc.reverse]
  | c :: cs, acc =>
    if isWordChar c then wordRunsAux cs (c :: acc)
    else if acc = [] then wordRunsAux cs [] else acc.reverse :: wordRunsAux cs []

/-- sklearn tokenization with the default `token_pattern r"(?u)\b\w\w+\b"`:
maximal word-character runs of length at least 2. -/
def tokenize (s : String) : List String :=
  ((wordRunsAux s.data []).filter fun r => 2 ≤ r.length).map fun r => String.mk r

/-- Space-joined bigrams, as produced by sklearn for `ngram_range=(1,2)`. -/
def bigrams : List String → List String
  | a :: b :: rest => (a ++ " " ++ b) :: bigrams (b :: rest)
  | _ => []

/-- Analyzer of the knowledge-base vectorizer (`lowercase=True`,
`strip_accents='unicode'`, `ngram_range=(1,2)`): unigrams then bigrams. -/
def kb_analyzer (s : String) : List String :=
  let toks := tokenize (String.mk ((lower_str s).data.map strip_accent_char))
  toks ++ bigrams toks

/-- Analyzer of the conversation-history vectorizer
(`TfidfVectorizer(lowercase=True, ngram_range=(1, 2))`, no accent stripping). -/
def conv_analyzer (s : String) : List String :=
  let toks := tokenize (lower_str s)
  toks ++ bigrams toks

/-! ## TF-IDF vectorization and cosine similarity -/

/-- Document frequency of a term: number of documents containing it. -/
def doc_freq (t : String) (docs : List (List String)) : Nat :=
  (docs.filter fun d => decide (t ∈ d)).length

/-- All distinct terms of a corpus. -/
def all_terms (docs : List (List String)) : List String := docs.flatten.dedup

/-- The vocabulary after sklearn's document-frequency pruning: terms `t` with
`min_df ≤ df(t)` and `df(t) ≤ max_df * n_docs` (a float `max_df` is a
proportion of the corpus size; terms strictly above it are removed).
The proportion is carried as the fraction `max_df_num / max_df_den`. -/
def vocabulary (min_df max_df_num max_df_den : Nat) (docs : List (List String)) : List String :=
  (all_terms docs).filter fun t =>
    decide (min_df ≤ doc_freq t docs) &&
    decide (doc_freq t docs * max_df_den ≤ max_df_num * docs.length)

/-- Executable success predicate of `fit_transform`: sklearn raises
`ValueError` exactly when the pruned vocabulary is empty ("After pruning, no
terms remain" / "empty vocabulary"). -/
def vectorization_ok (analyzer : String → List String)
    (min_df max_df_num max_df_den : Nat) (contents : List String) (query : String) : Bool :=
  !(vocabulary min_df max_df_num max_df_den ((contents ++ [query]).map analyzer)).isEmpty

/-- Smooth inverse document frequency (sklearn default `smooth_idf=True`):
`ln((1 + n) / (1 + df)) + 1`. -/
noncomputable def idf (n_docs df : Nat) : ℝ :=
  Real.log ((1 + (n_docs : ℝ)) / (1 + (df : ℝ))) + 1

/-- Raw term frequency of a term in a document. -/
def tf (t : String) (doc : List String) : Nat := doc.count t

/-- Component of the (unnormalized) tf-idf vector of `doc` within `docs`. -/
noncomputable def tfidf (docs : List (List String)) (doc : List String) (t : String) : ℝ :=
  (tf t doc : ℝ) * idf docs.length (doc_freq t docs)

/-- Dot product of two term-indexed vectors over a vocabulary. -/
noncomputable def dot_product (voc : List String) (f g : String → ℝ) : ℝ :=
  (voc.map fun t => f t * g t).sum

/-- Cosine similarity.  sklearn's `cosine_similarity` l2-normalizes rows and
leaves zero rows as zero, so a zero vector yields similarity 0 — which is
also the value of this formula in Lean, where division by zero is zero. -/
noncomputable def cosine_sim (voc : List String) (f g : String → ℝ) : ℝ :=
  dot_product voc f g / (Real.sqrt (dot_product voc f f) * Real.sqrt (dot_product voc g g))

/-- The documents handed to `fit_transform`: the contents plus the query. -/
def tv_docs (analyzer : String → List String) (contents : List String) (query : String) :
    List (List String) :=
  (contents ++ [query]).map analyzer

/-- The pruned vocabulary of a `fit_transform(contents + [query])` call. -/
def tv_vocab (analyzer : String → List String) (min_df max_df_num max_df_den : Nat)
    (contents : List String) (query : String) : List String :=
  vocabulary min_df max_df_num max_df_den (tv_docs analyzer contents query)

/-- Cosine similarity of the query row of the tf-idf matrix to the row of
one content document. -/
noncomputable def tv_sim (analyzer : String → List String)
    (min_df max_df_num max_df_den : Nat) (contents : List String) (query : String)
    (c : String) : ℝ :=
  cosine_sim (tv_vocab analyzer min_df max_df_num max_df_den contents query)
    (tfidf (tv_docs analyzer contents query) (analyzer query))
    (tfidf (tv_docs analyzer contents query) (analyzer c))

/-- Model of `fit_transform(contents + [query])` followed by
`cosine_similarity(m[-1:], m[:-1])[0]`: the similarity of the query to each
content document, in corpus order; `none` models the caught `ValueError`
when pruning leaves no vocabulary. -/
noncomputable def tfidf_cosine_sims (analyzer : String → List String)
    (min_df max_df_num max_df_den : Nat) (contents : List String) (query : String) :
    Option (List ℝ) :=
  if tv_vocab analyzer min_df max_df_num max_df_den contents query = [] then none
  else some (contents.map (tv_sim analyzer min_df max_df_num max_df_den contents query))

/-- The knowledge-base vectorizer configuration
(`max_df=0.85`, `min_df=2`, see `KnowledgeBase.__init__`). -/
noncomputable def kb_cosine_sims (contents : List String) (query : String) : Option (List ℝ) :=
  tfidf_cosine_sims kb_analyzer 2 17 20 contents query

/-- The conversation-history vectorizer configuration (sklearn defaults
`min_df=1`, `max_df=1.0`, see `_get_semantic_response`). -/
noncomputable def conv_cosine_sims (contents : List String) (query : String) : Option (List ℝ) :=
  tfidf_cosine_sims conv_analyzer 1 1 1 contents query

/-! ## The fact store -/

/-- A row of the `facts` table.  `importance REAL` is embedded as `ℚ`
(stored importances in this development are exact decimals);
`access_count INTEGER` as `ℤ`; timestamps as `ℕ`. -/
structure Fact where
  id : Nat
  content : String
  category : Option String
  importance : ℚ
  created_at : Nat
  last_accessed : Option Nat
  access_count : Int
deriving DecidableEq

/-- One `UPDATE facts SET last_accessed = datetime('now'), access_count = access_count + 1`. -/
def bumpFact (f : Fact) (now : Nat) : Fact :=
  { f with last_accessed := some now, access_count := f.access_count + 1 }

/-- Model of `KnowledgeBase._update_access_stats`: one UPDATE per id in the list,
each hitting every row whose primary key equals that id. -/
def update_access_stats (store : List Fact) (ids : List Nat) (now : Nat) : List Fact :=
  ids.foldl (fun st i => st.map fun f => if f.id = i then bumpFact f now else f) store

/-- Combined ranking score of a fact against a query, as computed in
`search_facts`: `0.7 * cosine_similarity + 0.3 * importance`.  The
similarity the code reads off at the fact's index depends only on the
fact's content and the corpus, which is how it is expressed here. -/
noncomputable def combined_score (contents : List String) (query : String) (f : Fact) : ℝ :=
  0.7 * tv_sim kb_analyzer 2 17 20 contents query f.content + 0.3 * (f.importance : ℝ)

/-- Model of `KnowledgeBase.search_facts(query, limit)`.  Returns the result list and
the store after the access-stat update.  The whole body is wrapped in
`try/except` returning `[]`, so a vectorizer `ValueError` (`none` from
`kb_cosine_sims`) yields `([], store)`. -/
noncomputable def search_facts (store : List Fact) (query : String) (limit : Nat) (now : Nat) :
    List Fact × List Fact :=
  if store = [] then ([], store)
  else
    match kb_cosine_sims (store.map (·.content)) query with
    | none => ([], store)
    | some sims =>
      let rankings := (store.zip sims).map fun p => (p.1.id, 0.7 * p.2 + 0.3 * (p.1.importance : ℝ))
      let sorted := rankings.mergeSort fun a b => decide (b.2 ≤ a.2)
      let top_fact_ids := (sorted.take limit).map (·.1)
      let results := top_fact_ids.filterMap fun i => store.find? fun f => f.id == i
      (results, update_access_stats store (results.map (·.id)) now)

/-- Model of `KnowledgeBase.add_fact(content, category, importance)`: inserts the row
with a fresh `AUTOINCREMENT` id and returns it.  The source performs no
validation of `content` or `importance`; the only failure path is a caught
storage exception, which the pure model does not exhibit. -/
def add_fact (store : List Fact) (next_id : Nat) (content : String)
    (category : Option String) (importance : ℚ) (now : Nat) :
    Option Nat × List Fact × Nat :=
  (some next_id,
   store ++ [{ id := next_id, content := content, category := category,
               importance := importance, created_at := now,
               last_accessed := none, access_count := 0 }],
   next_id + 1)

/-- Model of `KnowledgeBase.get_facts_by_category`: facts of the category ordered by
importance descending, with an access-stat update on every returned fact. -/
def get_facts_by_category (store : List Fact) (category : String) (now : Nat) :
    List Fact × List Fact :=
  let sel := (store.filter fun f => f.category == some category).mergeSort
    fun a b => decide (b.importance ≤ a.importance)
  (sel, update_access_stats store (sel.map (·.id)) now)

/-! ## Conversations and the tiered response resolver -/

/-- A row of the `conversations` table. -/
structure Conversation where
  id : Nat
  user_input : String
  system_response : String
  timestamp : Nat
  feedback : Int
deriving DecidableEq

/-- First index of the maximum (`np.argmax` keeps the first occurrence):
fold carrying current index, best index and best value, replacing the best
only on a strict increase. -/
noncomputable def argmaxAux (i bi : Nat) (bv : ℝ) : List ℝ → Nat × ℝ
  | [] => (bi, bv)
  | x :: xs => if bv < x then argmaxAux (i + 1) i x xs else argmaxAux (i + 1) bi bv xs

/-- Model of `np.argmax` over a list, 0 on the empty list. -/
noncomputable def argmaxIdx : List ℝ → Nat
  | [] => 0
  | x :: xs => (argmaxAux 1 0 x xs).1

/-- Model of `KnowledgeBase._get_semantic_response`.  Here `log` is the conversation table
in insertion order; the `ORDER BY timestamp DESC LIMIT 100` query yields the
last 100 rows, most recent first.  Vectorization is attempted only with at
least 5 user inputs; a vectorizer error (`none`) is caught and treated as no
result; the best match's stored response is returned verbatim only when its
cosine similarity exceeds 0.6. -/
noncomputable def get_semantic_response (log : List Conversation) (input_text : String) :
    Option String :=
  let conversations := log.reverse.take 100
  if conversations = [] then none
  else if 5 ≤ conversations.length then
    match conv_cosine_sims (conversations.map (·.user_input)) input_text with
    | none => none
    | some sims =>
      let i := argmaxIdx sims
      if 0.6 < sims.getD i 0 then
        some ((conversations.getD i ⟨0, "", "", 0, 0⟩).system_response)
      else none
  else none

/-- The greeting keyword list of `get_predefined_response`. -/
def greeting_patterns : List String :=
  ["hola", "buenos días", "buenas tardes", "buenas noches", "saludos"]

/-- The farewell keyword list of `get_predefined_response`. -/
def farewell_patterns : List String :=
  ["adiós", "hasta luego", "chao", "nos vemos", "hasta pronto"]

/-- Substring containment, Python's `pattern in input_lower`. -/
def containsSub (hay pat : String) : Bool := decide (List.IsInfix pat.data hay.data)

/-- Model of `random.choice`: some element of the list (`pick` models the random
index); raises `IndexError` on an empty list. -/
def random_choice (pick : Nat) (l : List String) : Except Unit String :=
  if l = [] then .error () else .ok (l.getD (pick % l.length) "")

/-- The default predefined-response table that `_load_predefined_responses`
writes and returns when no `predefined_responses.json` exists. -/
def default_responses : List (String × List String) :=
  [("greeting",
    ["Saludos, Su Majestad. ¿En qué puedo servirle hoy?",
     "A sus órdenes, Mi Rey. ¿Cómo puedo asistirle?",
     "Es un honor atenderle, Su Majestad. Estoy a su disposición."]),
   ("farewell",
    ["Ha sido un honor servirle, Su Majestad. Estaré aquí cuando me necesite.",
     "Que tenga un excelente día, Mi Rey. Quedo a su disposición.",
     "Me retiro a su orden, Su Majestad. Regresaré cuando lo solicite."]),
   ("unknown",
    ["Lamento no comprender completamente su solicitud, Su Majestad. ¿Podría reformularla?",
     "Mi Rey, me temo que necesito más información para procesar adecuadamente su petición.",
     "Su Majestad, permítame solicitar una aclaración para poder servirle mejor."]),
   ("acknowledgment",
    ["Entendido, Su Majestad.",
     "A sus órdenes, Mi Rey.",
     "Comprendido perfectamente, Su Alteza."])]

/-- Lookup of a category in the loaded response table (a JSON object). -/
def table_get (table : List (String × List String)) (k : String) : Option (List String) :=
  (table.find? fun p => p.1 == k).map (·.2)

/-- The hardcoded final fallback string of `get_predefined_response`. -/
def no_comprendo : String :=
  "No comprendo completamente su solicitud, Su Majestad. ¿Podría proporcionarme más detalles?"

/-- The last resort of `get_predefined_response`: a random `"unknown"`
reply, or the hardcoded fallback string when that key is absent. -/
def unknown_tier (table : List (String × List String)) (pick : Nat) : Except Unit String :=
  match table_get table "unknown" with
  | some l => random_choice pick l
  | none => .ok no_comprendo

/-- The conversation-history tier as used inside `get_predefined_response`:
the semantic result is used only when truthy (Python `if response:` —
`None` and the empty string both fall through to the unknown tier). -/
noncomputable def semantic_tier (table : List (String × List String))
    (log : List Conversation) (pick : Nat) (input_text : String) : Except Unit String :=
  match get_semantic_response log input_text with
  | some r => if r = "" then unknown_tier table pick else .ok r
  | none => unknown_tier table pick

/-- The farewell keyword check of `get_predefined_response`.  When the
`"farewell"` key is absent each loop iteration falls through, so the
semantic tier is reached regardless of the keywords. -/
noncomputable def farewell_tier (table : List (String × List String))
    (log : List Conversation) (pick : Nat) (input_text : String) : Except Unit String :=
  match table_get table "farewell" with
  | some l =>
    if farewell_patterns.any fun p => containsSub (lower_str input_text) p then
      random_choice pick l
    else semantic_tier table log pick input_text
  | none => semantic_tier table log pick input_text

/-- Model of `KnowledgeBase.get_predefined_response`: the greeting loop (checked
first), then the farewell loop, then the semantic tier, then the unknown
tier.  The greeting loop fires when some greeting keyword is a substring of
the lowercased input and the `"greeting"` key is present (when the key is
absent every iteration falls through to the farewell loop).
`random.choice` on an empty category list raises `IndexError`, which
propagates to the caller (`Except`). -/
noncomputable def get_predefined_response (table : List (String × List String))
    (log : List Conversation) (pick : Nat) (input_text : String) : Except Unit String :=
  match table_get table "greeting" with
  | some l =>
    if greeting_patterns.any fun p => containsSub (lower_str input_text) p then
      random_choice pick l
    else farewell_tier table log pick input_text
  | none => farewell_tier table log pick input_text

/-! ## `MLEngine.generate_response` -/

/-- The literal greeting list checked by exact equality at the top of
`generate_response`. -/
def exact_greetings : List String :=
  ["hola", "saludos", "buenos días", "buenas tardes", "buenas noches"]

/-- The fixed reply returned for an exact greeting. -/
def saludos_reply : String := "Saludos, Su Majestad. ¿En qué puedo servirle hoy?"

/-- Fallback when `get_predefined_response` raises in the model-unavailable branch. -/
def a_sus_ordenes : String := "A sus órdenes, Su Majestad. ¿Cómo puedo servirle hoy?"

/-- Fallback of the outermost `except` of the generation branch. -/
def lo_siento : String :=
  "Lo siento, Su Majestad, estoy teniendo dificultades para procesar su solicitud en este momento."

/-- The fact-tier response: prefix, contents joined by " Además, ", and the
top result's category when truthy. -/
def fact_response (facts : List Fact) : String :=
  let body := match facts with
    | [] => ""
    | f :: fs => f.content ++ (fs.foldl (fun acc g => acc ++ " Además, " ++ g.content) "")
  let base := "Su Majestad, basado en mi conocimiento: " ++ body
  match facts with
  | f :: _ =>
    match f.category with
    | some c => if c = "" then base else base ++ " Esta información está relacionada con " ++ c ++ "."
    | none => base
  | [] => base

/-- Python whitespace (`str.split()`, `\s`).  ASCII approximation. -/
def pyIsSpace (c : Char) : Bool := c.isWhitespace

/-- Maximal non-whitespace runs, Python `str.split()`. -/
def splitRunsAux : List Char → List Char → List (List Char)
  | [], acc => if acc = [] then [] else [acc.reverse]
  | c :: cs, acc =>
    if pyIsSpace c then
      (if acc = [] then splitRunsAux cs [] else acc.reverse :: splitRunsAux cs [])
    else splitRunsAux cs (c :: acc)

/-- Python `str.split()`. -/
def split_words (s : String) : List String := (splitRunsAux s.data []).map fun r => String.mk r

/-- A punctuation character of the class `[.,;:!?]`. -/
def isPunctChar (c : Char) : Bool :=
  c == '.' || c == ',' || c == ';' || c == ':' || c == '!' || c == '?'

/-- Model of `re.sub(r"\s+([.,;:!?])", r"\1", s)`: a whitespace character is dropped
exactly when the next character surviving to its right is punctuation. -/
def rmSpaceBeforePunct : List Char → List Char
  | [] => []
  | c :: cs =>
    let rest := rmSpaceBeforePunct cs
    if pyIsSpace c then
      match rest with
      | p :: _ => if isPunctChar p then rest else c :: rest
      | [] => c :: rest
    else c :: rest

/-- Model of `re.sub(r"\s+", " ", s)`: each maximal whitespace run becomes one space. -/
def collapseWs : List Char → List Char
  | [] => []
  | c :: cs =>
    let rest := collapseWs cs
    if pyIsSpace c then
      match cs with
      | d :: _ => if pyIsSpace d then rest else ' ' :: rest
      | [] => ' ' :: rest
    else c :: rest

/-- Python `str.strip()`. -/
def stripEnds (cs : List Char) : List Char :=
  ((cs.dropWhile pyIsSpace).reverse.dropWhile pyIsSpace).reverse

/-- Model of `MLEngine._format_response`: capitalize the first letter, ensure a
terminal punctuation mark, remove spaces before punctuation, collapse
whitespace runs, and strip. -/
def format_response (text : String) : String :=
  if text = "" then text
  else
    let cs := text.data
    let capitalized := match cs with
      | [] => []
      | c :: rest => c.toUpper :: rest
    let withPunct :=
      if capitalized.getLast? = some '.' ∨ capitalized.getLast? = some '!' ∨
         capitalized.getLast? = some '?' then capitalized
      else capitalized ++ ['.']
    String.mk (stripEnds (collapseWs (rmSpaceBeforePunct withPunct)))

/-- Model of `MLEngine.generate_response`.  Returns the reply together with a flag
recording whether `search_facts` was invoked during the call (the
instrumentation the spec's tier-fallthrough property asks for).

Parameters beyond the engine state: `model_ok` is true when a trained model
and a fitted tokenizer are available; `neural` is the outcome of the whole
tokenize/predict/decode pipeline of the generation branch (`.error` models
any exception in it, all of which the source catches by falling back to
`get_predefined_response`); `pick` models `random.choice`; `now` the clock.

Control flow of the source: exact greeting first; then the fact tier
(`search_facts(..., limit=3)`, any nonempty result wins); then, under the
response lock, the no-model branch (predefined response, its errors caught
with the hardcoded `a_sus_ordenes`); otherwise the generation branch, whose
internal failures fall back to `get_predefined_response` and whose
uncaught errors (including ones escaping those fallback calls) yield
`lo_siento`; a generated reply shorter than 3 words also falls back. -/
noncomputable def predef_or (fallback : String) (table : List (String × List String))
    (log : List Conversation) (pick : Nat) (input_text : String) : String :=
  match get_predefined_response table log pick input_text with
  | .ok r => r
  | .error _ => fallback

/-- Model of `MLEngine.generate_response` proper; see the control-flow notes on
`predef_or` above, which models one guarded call to
`get_predefined_response` with its surrounding `except` fallback. -/
noncomputable def generate_response (table : List (String × List String))
    (store : List Fact) (log : List Conversation) (input_text : String)
    (pick : Nat) (now : Nat) (model_ok : Bool) (neural : Except Unit String) :
    String × Bool :=
  if lower_str input_text ∈ exact_greetings then (saludos_reply, false)
  else
    if (search_facts store input_text 3 now).1 ≠ [] then
      (fact_response ((search_facts store input_text 3 now).1), true)
    else if model_ok = false then
      (predef_or a_sus_ordenes table log pick input_text, true)
    else
      match neural with
      | .error _ => (predef_or lo_siento table log pick input_text, true)
      | .ok s =>
        if (split_words s).length < 3 ∨ s = "" then
          (predef_or lo_siento table log pick input_text, true)
        else (format_response s, true)

/-! ## Operation traces over the fact store (for the store invariants) -/

/-- The public fact-store operations of `KnowledgeBase` that touch the
`facts` table, each carrying its call arguments and the wall clock. -/
inductive KBOp where
  | addFact (content : String) (category : Option String) (importance : ℚ) (now : Nat)
  | searchFacts (query : String) (limit : Nat) (now : Nat)
  | getByCategory (category : String) (now : Nat)

/-- The fact store with the `AUTOINCREMENT` counter of the `facts` table. -/
structure KBState where
  store : List Fact
  next_id : Nat
deriving DecidableEq

/-- The state of a freshly initialized database (`AUTOINCREMENT` starts at 1). -/
def initKB : KBState := ⟨[], 1⟩

/-- Effect of one operation on the fact store. -/
noncomputable def applyOp (s : KBState) : KBOp → KBState
  | .addFact content category importance now =>
    let r := add_fact s.store s.next_id content category importance now
    ⟨r.2.1, r.2.2⟩
  | .searchFacts query limit now => ⟨(search_facts s.store query limit now).2, s.next_id⟩
  | .getByCategory category now => ⟨(get_facts_by_category s.store category now).2, s.next_id⟩

/-- Run a trace of operations from a state. -/
noncomputable def runOps (s : KBState) (ops : List KBOp) : KBState := ops.foldl applyOp s

/-- Distinctness of the primary keys of the `facts` table (`id INTEGER
PRIMARY KEY`). -/
def nodup_ids (store : List Fact) : Prop := (store.map (·.id)).Nodup

/-- Whether the argument of an `add_fact` call lies in the importance range
`[0, 1]` that the spec declares invariant. -/
def importance_ok : KBOp → Bool
  | .addFact _ _ imp _ => decide (0 ≤ imp ∧ imp ≤ 1)
  | _ => true

/-- Structural invariant of the fact store: ids are below the
`AUTOINCREMENT` counter, distinct, and access counters are non-negative. -/
def kb_inv (s : KBState) : Prop :=
  (∀ f ∈ s.store, f.id < s.next_id) ∧ nodup_ids s.store ∧
  (∀ f ∈ s.store, 0 ≤ f.access_count)

/-- Shorthand for building a fresh fact row in examples. -/
def mkFact (i : Nat) (c : String) (imp : ℚ) : Fact :=
  { id := i, content := c, category := none, importance := imp,
    created_at := 0, last_accessed := none, access_count := 0 }

/-! ## Concrete example corpora used in counterexamples and witnesses -/

/-- Two facts with identical content (for the vectorizer-failure corpora):
a three-document `fit_transform` corpus of identical texts prunes every term
(document frequency 3 exceeds `0.85 * 3`), so `search_facts` returns `[]`. -/
def two_same_store : List Fact := [mkFact 1 "el sol brilla" 1, mkFact 2 "el sol brilla" 1]

/-- The higher-importance fact of the spec's importance tie-break scenario. -/
def tie_f1 : Fact := mkFact 1 "el rey sabio" (9 / 10)

/-- The lower-importance fact of the spec's importance tie-break scenario. -/
def tie_f2 : Fact := mkFact 2 "el rey sabio" (3 / 10)

/-- The two-fact store of the importance tie-break scenario (claim C3). -/
def tie_store : List Fact := [tie_f1, tie_f2]

/-- A single-fact store (claim C4's counterexample): with one fact the
corpus handed to the vectorizer has two identical documents, every term has
document frequency 2 above `0.85 * 2`, and vectorization fails. -/
def single_store : List Fact := [mkFact 1 "el sol brilla" 1]

/-- A two-fact identical-content store whose terms survive pruning when the
query shares none of them (witness corpus for the amended tie-break). -/
def tie_ok_f1 : Fact := mkFact 1 "luna roja" (9 / 10)

/-- Companion lower-importance fact of `tie_ok_f1`. -/
def tie_ok_f2 : Fact := mkFact 2 "luna roja" (3 / 10)

/-- Witness store for the amended importance tie-break. -/
def tie_ok_store : List Fact := [tie_ok_f1, tie_ok_f2]

/-- Witness corpus for the amended exact-match claim: querying "rey sol"
against contents "rey sol", "rey luna", "sol luna" keeps the vocabulary
terms "luna", "rey", "sol", "rey sol" after pruning. -/
def exact_f1 : Fact := mkFact 1 "rey sol" 1

/-- Second fact of the exact-match witness corpus. -/
def exact_f2 : Fact := mkFact 2 "rey luna" (1 / 2)

/-- Third fact of the exact-match witness corpus. -/
def exact_f3 : Fact := mkFact 3 "sol luna" (1 / 2)

/-- The exact-match witness store. -/
def exact_store : List Fact := [exact_f1, exact_f2, exact_f3]

/-- The `(fact_id, combined_score)` ranking list after the descending stable
sort (`rankings.sort(key=lambda x: x[1], reverse=True)`). -/
noncomputable def ranked_pairs (store : List Fact) (q : String) : List (Nat × ℝ) :=
  (store.map fun f => (f.id, combined_score (store.map (·.content)) q f)).mergeSort
    fun a b => decide (b.2 ≤ a.2)

/-- The result list `search_facts` builds from the top `limit` ranked ids. -/
noncomputable def spec_results (store : List Fact) (q : String) (lim : Nat) : List Fact :=
  (((ranked_pairs store q).take lim).map (·.1)).filterMap fun i =>
    store.find? fun f => f.id == i

/-! ## Auxiliary lemmas: id lookups, sorting, access-stat updates -/

theorem find_id_of_mem {store : List Fact} {f : Fact} (hnd : nodup_ids store)
    (hf : f ∈ store) : store.find? (fun g => g.id == f.id) = some f := by
  induction store with
  | nil => cases hf
  | cons a l ih =>
    have hnd' : (l.map (·.id)).Nodup := (List.nodup_cons.mp hnd).2
    rcases List.mem_cons.mp hf with h | h
    · subst h
      simp [List.find?]
    · have hne : a.id ≠ f.id := by
        intro he
        exact (List.nodup_cons.mp hnd).1
          (by simpa [he] using List.mem_map_of_mem (fun x : Fact => x.id) h)
      have : (a.id == f.id) = false := by
        simpa using hne
      simp [List.find?, this, ih hnd' h]

theorem eq_of_mem_of_id_eq {store : List Fact} {f g : Fact} (hnd : nodup_ids store)
    (hf : f ∈ store) (hg : g ∈ store) (h : f.id = g.id) : f = g := by
  have h1 := find_id_of_mem hnd hf
  have h2 := find_id_of_mem hnd hg
  rw [h] at h1
  rw [h1] at h2
  exact Option.some_inj.mp h2

theorem pairwise_desc_mergeSort {α : Type} (key : α → ℝ) (l : List α) :
    (l.mergeSort fun a b => decide (key b ≤ key a)).Pairwise fun a b => key b ≤ key a := by
  have htrans : ∀ a b c : α, (decide (key b ≤ key a)) = true →
      (decide (key c ≤ key b)) = true → (decide (key c ≤ key a)) = true := by
    intro a b c hab hbc
    simp only [decide_eq_true_eq] at *
    exact le_trans hbc hab
  have htotal : ∀ a b : α, ((decide (key b ≤ key a)) || (decide (key a ≤ key b))) = true := by
    intro a b
    simp only [Bool.or_eq_true, decide_eq_true_eq]
    exact le_total (key b) (key a)
  have := @List.sorted_mergeSort α (fun a b => decide (key b ≤ key a)) htrans htotal l
  exact this.imp fun h => by simpa using h

theorem head_mergeSort_strict_max {α : Type} (key : α → ℝ) {l : List α} {x : α}
    (hx : x ∈ l) (hmax : ∀ y ∈ l, y ≠ x → key y < key x) :
    (l.mergeSort fun a b => decide (key b ≤ key a)).head? = some x := by
  have hperm := List.mergeSort_perm l fun a b => decide (key b ≤ key a)
  have hpw := pairwise_desc_mergeSort key l
  have hxs : x ∈ l.mergeSort fun a b => decide (key b ≤ key a) := hperm.mem_iff.mpr hx
  cases hs : l.mergeSort fun a b => decide (key b ≤ key a) with
  | nil => rw [hs] at hxs; cases hxs
  | cons h t =>
    rw [hs] at hxs hpw
    have hh : h ∈ l := hperm.mem_iff.mp (hs ▸ List.mem_cons_self h t)
    by_cases hhx : h = x
    · rw [hhx]
      rfl
    · exfalso
      have hxt : x ∈ t := by
        rcases List.mem_cons.mp hxs with h1 | h1
        · exact absurd h1.symm hhx
        · exact h1
      have hle : key x ≤ key h := (List.pairwise_cons.mp hpw).1 x hxt
      exact absurd hle (not_le.mpr (hmax h hh hhx))

theorem update_access_stats_map (ids : List Nat) (now : Nat) :
    ∀ store : List Fact, ids.Nodup →
      update_access_stats store ids now =
        store.map fun f => if f.id ∈ ids then bumpFact f now else f := by
  induction ids with
  | nil =>
    intro store _
    simp [update_access_stats]
  | cons i ids ih =>
    intro store hnd
    have hni : i ∉ ids := (List.nodup_cons.mp hnd).1
    have hnd' : ids.Nodup := (List.nodup_cons.mp hnd).2
    have : update_access_stats store (i :: ids) now =
        update_access_stats (store.map fun f => if f.id = i then bumpFact f now else f) ids now := by
      simp [update_access_stats]
    rw [this, ih _ hnd', List.map_map]
    apply List.map_congr_left
    intro f _
    simp only [Function.comp_apply]
    by_cases hfi : f.id = i
    · rw [if_pos hfi]
      have h1 : (bumpFact f now).id ∉ ids := by
        have hb : (bumpFact f now).id = f.id := rfl
        rw [hb, hfi]
        exact hni
      rw [if_neg h1, if_pos (by rw [hfi]; exact List.mem_cons_self i ids)]
    · rw [if_neg hfi]
      by_cases hmem : f.id ∈ ids
      · rw [if_pos hmem, if_pos (List.mem_cons_of_mem i hmem)]
      · rw [if_neg hmem, if_neg ?_]
        intro hc
        rcases List.mem_cons.mp hc with h1 | h1
        · exact hfi h1
        · exact hmem h1

theorem update_access_stats_shape (ids : List Nat) (now : Nat) :
    ∀ store : List Fact, ∃ F : Fact → Fact,
      update_access_stats store ids now = store.map F ∧
      ∀ f, (F f).id = f.id ∧ (F f).content = f.content ∧ (F f).category = f.category ∧
        (F f).importance = f.importance ∧ (F f).created_at = f.created_at ∧
        f.access_count ≤ (F f).access_count := by
  induction ids with
  | nil =>
    intro store
    refine ⟨id, ?_, ?_⟩
    · simp [update_access_stats]
    · intro f
      exact ⟨rfl, rfl, rfl, rfl, rfl, le_refl _⟩
  | cons i ids ih =>
    intro store
    have hstep : update_access_stats store (i :: ids) now =
        update_access_stats (store.map fun f => if f.id = i then bumpFact f now else f) ids now := by
      simp [update_access_stats]
    obtain ⟨F, hF, hprops⟩ := ih (store.map fun f => if f.id = i then bumpFact f now else f)
    refine ⟨fun f => F (if f.id = i then bumpFact f now else f), ?_, ?_⟩
    · rw [hstep, hF, List.map_map]
      rfl
    · intro f
      dsimp only
      by_cases hfi : f.id = i
      · rw [if_pos hfi]
        obtain ⟨p1, p2, p3, p4, p5, p6⟩ := hprops (bumpFact f now)
        refine ⟨p1, p2, p3, p4, p5, ?_⟩
        calc f.access_count ≤ (bumpFact f now).access_count := by
              simp [bumpFact]
          _ ≤ _ := p6
      · rw [if_neg hfi]
        exact hprops f

/-! ## Characterization of `search_facts` on the success path -/

theorem zip_self_map {α β : Type} (l : List α) (h : α → β) :
    l.zip (l.map h) = l.map fun a => (a, h a) := by
  induction l with
  | nil => rfl
  | cons a l ih => simp [ih]

theorem kb_cosine_sims_of_ok {contents : List String} {q : String}
    (h2 : tv_vocab kb_analyzer 2 17 20 contents q ≠ []) :
    kb_cosine_sims contents q =
      some (contents.map (tv_sim kb_analyzer 2 17 20 contents q)) := by
  unfold kb_cosine_sims tfidf_cosine_sims
  rw [if_neg h2]

theorem search_facts_ok (store : List Fact) (q : String) (lim now : Nat)
    (h1 : store ≠ []) (h2 : tv_vocab kb_analyzer 2 17 20 (store.map (·.content)) q ≠ []) :
    search_facts store q lim now =
      (spec_results store q lim,
       update_access_stats store ((spec_results store q lim).map (·.id)) now) := by
  unfold search_facts spec_results ranked_pairs
  rw [if_neg h1, kb_cosine_sims_of_ok h2]
  simp only [List.map_map, zip_self_map, combined_score]
  rfl

theorem results_map_pairs {store : List Fact} (key : Fact → ℝ) (hnd : nodup_ids store) :
    ∀ L : List (Nat × ℝ), (∀ p ∈ L, ∃ f ∈ store, p = (f.id, key f)) →
      ((L.map (·.1)).filterMap fun i => store.find? fun f => f.id == i).map
        (fun f => (f.id, key f)) = L := by
  intro L
  induction L with
  | nil => intro _; rfl
  | cons p L ih =>
    intro hmem
    obtain ⟨f, hf, hp⟩ := hmem p (List.mem_cons_self p L)
    have hp1 : p.1 = f.id := by rw [hp]
    have hfind : store.find? (fun g => g.id == p.1) = some f := by
      rw [hp1]
      exact find_id_of_mem hnd hf
    simp only [List.map_cons, List.filterMap_cons, hfind]
    rw [ih fun r hr => hmem r (List.mem_cons_of_mem p hr)]
    rw [hp]

theorem mem_store_of_mem_results {store : List Fact} {ids : List Nat} {f : Fact}
    (h : f ∈ ids.filterMap fun i => store.find? fun g => g.id == i) : f ∈ store := by
  obtain ⟨i, _, hfind⟩ := List.mem_filterMap.mp h
  exact List.mem_of_find?_eq_some hfind

theorem spec_results_map_pairs (store : List Fact) (q : String) (lim : Nat)
    (hnd : nodup_ids store) :
    (spec_results store q lim).map
        (fun f => (f.id, combined_score (store.map (·.content)) q f)) =
      (ranked_pairs store q).take lim := by
  apply results_map_pairs _ hnd
  intro p hp
  have hp' : p ∈ ranked_pairs store q :=
    List.mem_of_mem_take hp
  have := (List.mergeSort_perm
    (store.map fun f => (f.id, combined_score (store.map (·.content)) q f))
    fun a b => decide (b.2 ≤ a.2)).mem_iff.mp hp'
  obtain ⟨f, hf, hfp⟩ := List.mem_map.mp this
  exact ⟨f, hf, hfp.symm⟩

theorem spec_results_map_ids (store : List Fact) (q : String) (lim : Nat)
    (hnd : nodup_ids store) :
    (spec_results store q lim).map (·.id) = ((ranked_pairs store q).take lim).map (·.1) := by
  have h := spec_results_map_pairs store q lim hnd
  calc (spec_results store q lim).map (·.id)
      = ((spec_results store q lim).map
          (fun f => (f.id, combined_score (store.map (·.content)) q f))).map (·.1) := by
        rw [List.map_map]
        rfl
    _ = ((ranked_pairs store q).take lim).map (·.1) := by rw [h]

theorem ranked_pairs_ids_nodup (store : List Fact) (q : String) (hnd : nodup_ids store) :
    ((ranked_pairs store q).map (·.1)).Nodup := by
  have hperm : ((ranked_pairs store q).map (·.1)).Perm
      ((store.map fun f => (f.id, combined_score (store.map (·.content)) q f)).map (·.1)) :=
    List.Perm.map _ (List.mergeSort_perm _ _)
  have : ((store.map fun f => (f.id, combined_score (store.map (·.content)) q f)).map
      (·.1)) = store.map (·.id) := by
    rw [List.map_map]
    rfl
  rw [this] at hperm
  exact hperm.nodup_iff.mpr hnd

theorem spec_results_ids_nodup (store : List Fact) (q : String) (lim : Nat)
    (hnd : nodup_ids store) : ((spec_results store q lim).map (·.id)).Nodup := by
  rw [spec_results_map_ids store q lim hnd, List.map_take]
  exact ((ranked_pairs store q).map (·.1)).take_sublist lim |>.nodup
    (ranked_pairs_ids_nodup store q hnd)

/-- Branch-independent facts about one `search_facts` call: returned facts
come from the store, their ids are distinct, and the updated store is the
access-stat update at exactly those ids. -/
theorem search_facts_general (store : List Fact) (q : String) (lim now : Nat)
    (hnd : nodup_ids store) :
    (∀ f ∈ (search_facts store q lim now).1, f ∈ store) ∧
    ((search_facts store q lim now).1.map (·.id)).Nodup ∧
    (search_facts store q lim now).2 =
      update_access_stats store ((search_facts store q lim now).1.map (·.id)) now := by
  by_cases h1 : store = []
  · subst h1
    exact ⟨fun f hf => absurd hf (List.not_mem_nil f), List.nodup_nil, rfl⟩
  · by_cases h2 : tv_vocab kb_analyzer 2 17 20 (store.map (·.content)) q = []
    · have hnone : kb_cosine_sims (store.map (·.content)) q = none := by
        unfold kb_cosine_sims tfidf_cosine_sims
        rw [if_pos h2]
      unfold search_facts
      rw [if_neg h1, hnone]
      exact ⟨fun f hf => absurd hf (List.not_mem_nil f), List.nodup_nil, rfl⟩
    · rw [search_facts_ok store q lim now h1 h2]
      refine ⟨?_, spec_results_ids_nodup store q lim hnd, rfl⟩
      intro f hf
      exact mem_store_of_mem_results hf

/-! ## Analytic facts about the cosine similarity -/

theorem dot_product_self_nonneg (voc : List String) (f : String → ℝ) :
    0 ≤ dot_product voc f f := by
  apply List.sum_nonneg
  intro x hx
  obtain ⟨t, _, rfl⟩ := List.mem_map.mp hx
  exact mul_self_nonneg (f t)

theorem list_sum_pos_of_mem : ∀ {l : List ℝ}, (∀ x ∈ l, 0 ≤ x) →
    ∀ {x : ℝ}, x ∈ l → 0 < x → 0 < l.sum := by
  intro l
  induction l with
  | nil => intro _ x hx; cases hx
  | cons a t ih =>
    intro hno x hx hxpos
    rw [List.sum_cons]
    rcases List.mem_cons.mp hx with h | h
    · rw [h] at hxpos
      have : 0 ≤ t.sum := List.sum_nonneg fun y hy => hno y (List.mem_cons_of_mem a hy)
      linarith
    · have ha : 0 ≤ a := hno a (List.mem_cons_self a t)
      have : 0 < t.sum := ih (fun y hy => hno y (List.mem_cons_of_mem a hy)) h hxpos
      linarith

theorem dot_product_self_pos (voc : List String) (f : String → ℝ) {t0 : String}
    (ht : t0 ∈ voc) (hf : f t0 ≠ 0) : 0 < dot_product voc f f := by
  unfold dot_product
  apply list_sum_pos_of_mem
  · intro x hx
    obtain ⟨t, _, rfl⟩ := List.mem_map.mp hx
    exact mul_self_nonneg (f t)
  · exact List.mem_map_of_mem (fun t => f t * f t) ht
  · exact mul_self_pos.mpr hf

theorem cosine_sim_self (voc : List String) (f : String → ℝ)
    (h : dot_product voc f f ≠ 0) : cosine_sim voc f f = 1 := by
  unfold cosine_sim
  rw [Real.mul_self_sqrt (dot_product_self_nonneg voc f)]
  exact div_self h

theorem cauchy_schwarz_dot (voc : List String) (hnd : voc.Nodup) (f g : String → ℝ) :
    dot_product voc f g ^ 2 ≤ dot_product voc f f * dot_product voc g g := by
  unfold dot_product
  rw [← List.sum_toFinset _ hnd, ← List.sum_toFinset _ hnd, ← List.sum_toFinset _ hnd]
  have h := Finset.sum_mul_sq_le_sq_mul_sq voc.toFinset f g
  calc (∑ t ∈ voc.toFinset, f t * g t) ^ 2
      ≤ (∑ t ∈ voc.toFinset, f t ^ 2) * ∑ t ∈ voc.toFinset, g t ^ 2 := h
    _ = (∑ t ∈ voc.toFinset, f t * f t) * ∑ t ∈ voc.toFinset, g t * g t := by
        simp [pow_two]

theorem cosine_sim_le_one (voc : List String) (hnd : voc.Nodup) (f g : String → ℝ) :
    cosine_sim voc f g ≤ 1 := by
  unfold cosine_sim
  have hA : 0 ≤ dot_product voc f f := dot_product_self_nonneg voc f
  have hB : 0 ≤ dot_product voc g g := dot_product_self_nonneg voc g
  by_cases hz : Real.sqrt (dot_product voc f f) * Real.sqrt (dot_product voc g g) = 0
  · rw [hz, div_zero]
    exact zero_le_one
  · have hpos : 0 < Real.sqrt (dot_product voc f f) * Real.sqrt (dot_product voc g g) :=
      lt_of_le_of_ne (mul_nonneg (Real.sqrt_nonneg _) (Real.sqrt_nonneg _)) (Ne.symm hz)
    rw [div_le_one hpos]
    calc dot_product voc f g ≤ |dot_product voc f g| := le_abs_self _
      _ = Real.sqrt (dot_product voc f g ^ 2) := (Real.sqrt_sq_eq_abs _).symm
      _ ≤ Real.sqrt (dot_product voc f f * dot_product voc g g) :=
          Real.sqrt_le_sqrt (cauchy_schwarz_dot voc hnd f g)
      _ = Real.sqrt (dot_product voc f f) * Real.sqrt (dot_product voc g g) :=
          Real.sqrt_mul hA _

theorem vocabulary_nodup (a b c : Nat) (docs : List (List String)) :
    (vocabulary a b c docs).Nodup :=
  List.Nodup.filter _ (List.nodup_dedup _)

theorem doc_freq_le (t : String) (docs : List (List String)) :
    doc_freq t docs ≤ docs.length :=
  List.length_filter_le _ _

theorem one_le_idf (n d : Nat) (h : d ≤ n) : 1 ≤ idf n d := by
  unfold idf
  have h1 : (0 : ℝ) < 1 + (d : ℝ) := by positivity
  have h2 : (1 : ℝ) ≤ (1 + (n : ℝ)) / (1 + (d : ℝ)) := by
    rw [one_le_div h1]
    have : (d : ℝ) ≤ (n : ℝ) := Nat.cast_le.mpr h
    linarith
  have := Real.log_nonneg h2
  linarith

theorem one_le_tfidf (docs : List (List String)) (doc : List String) (t : String)
    (ht : t ∈ doc) : 1 ≤ tfidf docs doc t := by
  unfold tfidf
  have h1 : 1 ≤ (tf t doc : ℝ) := by
    have : 0 < tf t doc := List.count_pos_iff.mpr ht
    exact_mod_cast this
  have h2 : 1 ≤ idf docs.length (doc_freq t docs) := one_le_idf _ _ (doc_freq_le t docs)
  calc (1 : ℝ) = 1 * 1 := by ring
    _ ≤ (tf t doc : ℝ) * idf docs.length (doc_freq t docs) :=
        mul_le_mul h1 h2 zero_le_one (le_trans zero_le_one h1)

theorem tv_sim_le_one (analyzer : String → List String) (a b c : Nat)
    (contents : List String) (q s : String) :
    tv_sim analyzer a b c contents q s ≤ 1 :=
  cosine_sim_le_one _ (vocabulary_nodup a b c _) _ _

/-- A document whose analyzed token sequence equals the query's receives
cosine similarity exactly 1, provided some query term survived pruning. -/
theorem tv_sim_self_eq_one (analyzer : String → List String) (a b c : Nat)
    (contents : List String) (q s : String) (hs : analyzer s = analyzer q)
    {t0 : String} (ht0 : t0 ∈ tv_vocab analyzer a b c contents q)
    (htq : t0 ∈ analyzer q) :
    tv_sim analyzer a b c contents q s = 1 := by
  unfold tv_sim
  rw [hs]
  apply cosine_sim_self
  have h1 : (1 : ℝ) ≤ tfidf (tv_docs analyzer contents q) (analyzer q) t0 :=
    one_le_tfidf _ _ _ htq
  have hne : tfidf (tv_docs analyzer contents q) (analyzer q) t0 ≠ 0 := by linarith
  exact ne_of_gt (dot_product_self_pos _ _ ht0 hne)

theorem vectorization_ok_iff (analyzer : String → List String) (a b c : Nat)
    (contents : List String) (q : String) :
    vectorization_ok analyzer a b c contents q = true ↔
      tv_vocab analyzer a b c contents q ≠ [] := by
  unfold vectorization_ok tv_vocab tv_docs
  simp [List.isEmpty_iff]

theorem head?_take {α : Type} (l : List α) {n : Nat} (hn : 1 ≤ n) :
    (l.take n).head? = l.head? := by
  cases l with
  | nil => simp
  | cons a t =>
    cases n with
    | zero => exact absurd hn (by omega)
    | succ k => simp [List.take_succ_cons]

/-- The head of the result list is the fact with the strictly greatest
combined score, when one exists. -/
theorem spec_results_head (store : List Fact) (q : String) (lim now : Nat)
    (h1 : store ≠ []) (h2 : tv_vocab kb_analyzer 2 17 20 (store.map (·.content)) q ≠ [])
    (hnd : nodup_ids store) (hlim : 1 ≤ lim) {x : Fact} (hx : x ∈ store)
    (hmax : ∀ g ∈ store, g ≠ x →
      combined_score (store.map (·.content)) q g < combined_score (store.map (·.content)) q x) :
    (search_facts store q lim now).1.head? = some x := by
  rw [search_facts_ok store q lim now h1 h2]
  have hpairhead : (ranked_pairs store q).head? =
      some (x.id, combined_score (store.map (·.content)) q x) := by
    apply head_mergeSort_strict_max Prod.snd
    · exact List.mem_map_of_mem _ hx
    · intro p hp hpne
      obtain ⟨g, hg, hgp⟩ := List.mem_map.mp hp
      have hgx : g ≠ x := by
        intro he
        rw [he] at hgp
        exact hpne hgp.symm
      have := hmax g hg hgx
      rw [← hgp]
      exact this
  have hchar := spec_results_map_pairs store q lim hnd
  have htake : ((ranked_pairs store q).take lim).head? =
      some (x.id, combined_score (store.map (·.content)) q x) := by
    rw [head?_take _ hlim]
    exact hpairhead
  rw [← hchar, List.head?_map] at htake
  obtain ⟨f0, hf0, hf0p⟩ := Option.map_eq_some'.mp htake
  have hf0mem : f0 ∈ spec_results store q lim :=
    List.mem_of_mem_head? (Option.mem_def.mpr hf0)
  have hf0store : f0 ∈ store := mem_store_of_mem_results hf0mem
  have hid : f0.id = x.id := by
    have := congrArg Prod.fst hf0p
    simpa using this
  rw [hf0, eq_of_mem_of_id_eq hnd hf0store hx hid]

/-! ## Claim C1: the combined-score ranking of `search_facts` -/

/-- C1 (amended): on every nonempty corpus on which the tf-idf
vectorization succeeds (nonempty pruned vocabulary), `search_facts` returns
at most `limit` facts drawn from the store, sorted in descending order of
the combined score `0.7 * cosine_similarity + 0.3 * importance`, and every
stored fact left out of the result list scores no higher than any returned
fact.  (The original claim, quantified over all nonempty corpora, is false:
see the counterexample, where vectorization raises and the caught exception
yields `[]` instead of the ranked corpus.) -/
theorem C1_search_ranking (store : List Fact) (q : String) (lim now : Nat)
    (h1 : store ≠ [])
    (h2 : vectorization_ok kb_analyzer 2 17 20 (store.map (·.content)) q = true)
    (hnd : nodup_ids store) :
    (search_facts store q lim now).1.length = min lim store.length ∧
    (search_facts store q lim now).1.Pairwise (fun f g =>
      combined_score (store.map (·.content)) q g ≤
        combined_score (store.map (·.content)) q f) ∧
    (∀ f ∈ (search_facts store q lim now).1, f ∈ store) ∧
    (∀ g ∈ store, g ∉ (search_facts store q lim now).1 →
      ∀ f ∈ (search_facts store q lim now).1,
        combined_score (store.map (·.content)) q g ≤
          combined_score (store.map (·.content)) q f) := by
  have h2' := (vectorization_ok_iff kb_analyzer 2 17 20 (store.map (·.content)) q).mp h2
  have hchar := spec_results_map_pairs store q lim hnd
  have hlen : (ranked_pairs store q).length = store.length := by
    unfold ranked_pairs
    rw [List.length_mergeSort, List.length_map]
  have hsorted := pairwise_desc_mergeSort (Prod.snd (β := ℝ))
    (store.map fun f => (f.id, combined_score (store.map (·.content)) q f))
  rw [search_facts_ok store q lim now h1 h2']
  refine ⟨?_, ?_, ?_, ?_⟩
  · have := congrArg List.length hchar
    rw [List.length_map, List.length_take, hlen] at this
    exact this
  · have htakepw : (((ranked_pairs store q).take lim).Pairwise fun a b => b.2 ≤ a.2) :=
      List.Pairwise.sublist (List.take_sublist lim (ranked_pairs store q)) hsorted
    rw [← hchar] at htakepw
    have := List.pairwise_map.mp htakepw
    exact this.imp fun h => h
  · intro f hf
    exact mem_store_of_mem_results hf
  · intro g hg hgnot f hf
    have hsplit := List.take_append_drop lim (ranked_pairs store q)
    have hcross : ∀ a ∈ (ranked_pairs store q).take lim,
        ∀ b ∈ (ranked_pairs store q).drop lim, b.2 ≤ a.2 := by
      have := hsorted
      rw [show (store.map fun f => (f.id, combined_score (store.map (·.content)) q f)).mergeSort
            (fun a b => decide (b.2 ≤ a.2)) = ranked_pairs store q from rfl] at this
      rw [← hsplit] at this
      exact (List.pairwise_append.mp this).2.2
    have hgpair : (g.id, combined_score (store.map (·.content)) q g) ∈ ranked_pairs store q := by
      have hperm := List.mergeSort_perm
        (store.map fun f => (f.id, combined_score (store.map (·.content)) q f))
        fun a b => decide (b.2 ≤ a.2)
      exact hperm.mem_iff.mpr (List.mem_map_of_mem _ hg)
    have hgdrop : (g.id, combined_score (store.map (·.content)) q g) ∈
        (ranked_pairs store q).drop lim := by
      rcases (List.mem_append.mp (by rw [hsplit]; exact hgpair)) with hin | hin
      · exfalso
        rw [← hchar] at hin
        obtain ⟨g0, hg0, hg0p⟩ := List.mem_map.mp hin
        have hg0store : g0 ∈ store := mem_store_of_mem_results hg0
        have : g0 = g := eq_of_mem_of_id_eq hnd hg0store hg (by
          have := congrArg Prod.fst hg0p
          simpa using this)
        exact hgnot (this ▸ hg0)
      · exact hin
    have hfpair : (f.id, combined_score (store.map (·.content)) q f) ∈
        (ranked_pairs store q).take lim := by
      rw [← hchar]
      exact List.mem_map_of_mem _ hf
    exact hcross _ hfpair _ hgdrop

/-- C1 witness: a concrete corpus on which the amended ranking theorem
applies (two identical-content facts queried with an unrelated word — the
shared terms survive pruning). -/
theorem C1_search_ranking_witness :
    tie_ok_store ≠ [] ∧
    vectorization_ok kb_analyzer 2 17 20 (tie_ok_store.map (·.content)) "hola" = true ∧
    (search_facts tie_ok_store "hola" 10 0).1.length = min 10 tie_ok_store.length :=
  ⟨by decide, by decide,
    (C1_search_ranking tie_ok_store "hola" 10 0 (by decide) (by decide)
      (by unfold nodup_ids; decide)).1⟩

/-- C1 counterexample: a nonempty two-fact corpus (identical contents)
queried with that same content.  All terms of the three-document
`fit_transform` corpus have document frequency 3 > 0.85 * 3, pruning empties
the vocabulary, sklearn raises, and the caught exception makes
`search_facts` return `[]` — no fact is assigned a combined score and the
ranked corpus is not returned, contradicting the claim (with `limit = 10`
both facts would have to appear). -/
theorem C1_counterexample :
    two_same_store ≠ [] ∧ two_same_store.length = 2 ∧
    kb_cosine_sims (two_same_store.map (·.content)) "el sol brilla" = none ∧
    (search_facts two_same_store "el sol brilla" 10 0).1 = [] := by
  have hvoc : tv_vocab kb_analyzer 2 17 20 (two_same_store.map (·.content)) "el sol brilla"
      = [] := by decide
  have hnone : kb_cosine_sims (two_same_store.map (·.content)) "el sol brilla" = none := by
    unfold kb_cosine_sims tfidf_cosine_sims
    rw [if_pos hvoc]
  refine ⟨by decide, by decide, hnone, ?_⟩
  unfold search_facts
  rw [if_neg (by decide), hnone]

/-! ## Claim C3: the importance tie-break -/

set_option maxHeartbeats 2000000 in
/-- C3 (amended): in the claim's literal scenario — a store holding exactly
two facts with identical content and importances 0.9 and 0.3, queried with
that shared content — `search_facts` returns `[]`: the three identical
documents handed to `fit_transform` give every term document frequency
3 > 0.85 * 3, the vocabulary is pruned empty, sklearn raises, and the
caught exception yields the empty result (see the counterexample).  The
tie-break itself holds whenever vectorization succeeds: for a store of two
identical-content facts, the higher-importance fact is ranked first. -/
theorem C3_tie_break (f1 f2 : Fact) (q : String) (lim now : Nat)
    (hc : f1.content = f2.content) (hid : f1.id ≠ f2.id)
    (himp : f2.importance < f1.importance)
    (hok : vectorization_ok kb_analyzer 2 17 20 ([f1, f2].map (·.content)) q = true)
    (hlim : 1 ≤ lim) :
    (search_facts [f1, f2] q lim now).1.head? = some f1 := by
  have h2' : tv_vocab kb_analyzer 2 17 20 ([f1, f2].map (·.content)) q ≠ [] := by
    rw [← vectorization_ok_iff kb_analyzer 2 17 20 ([f1, f2].map (·.content)) q]
    exact hok
  have hnd : nodup_ids [f1, f2] := by
    unfold nodup_ids
    simp [hid]
  apply spec_results_head [f1, f2] q lim now (by simp) h2' hnd hlim
    (List.mem_cons_self f1 [f2])
  intro g hg hgne
  have hg2 : g = f2 := by
    rcases List.mem_cons.mp hg with h | h
    · exact absurd h hgne
    · simpa using h
  subst hg2
  unfold combined_score
  rw [← hc]
  have himpR : (g.importance : ℝ) < (f1.importance : ℝ) := by exact_mod_cast himp
  linarith

/-- C3 witness: the amended tie-break applied to a concrete store of two
identical-content facts (importances 0.9 and 0.3) and a query sharing no
term with them, so that the contents' terms survive pruning. -/
theorem C3_tie_break_witness :
    tie_ok_f1.content = tie_ok_f2.content ∧
    tie_ok_f2.importance < tie_ok_f1.importance ∧
    vectorization_ok kb_analyzer 2 17 20 ([tie_ok_f1, tie_ok_f2].map (·.content)) "hola" = true ∧
    (search_facts [tie_ok_f1, tie_ok_f2] "hola" 10 0).1.head? = some tie_ok_f1 :=
  ⟨by decide, by norm_num [tie_ok_f1, tie_ok_f2, mkFact], by decide,
    C3_tie_break tie_ok_f1 tie_ok_f2 "hola" 10 0 (by decide) (by decide)
      (by norm_num [tie_ok_f1, tie_ok_f2, mkFact]) (by decide) (by decide)⟩

/-- C3 counterexample: the claim's exact scenario.  The store holds exactly
two facts with identical content "el rey sabio" and importances 0.9 and
0.3; searching that shared content returns the empty list, not the
higher-importance fact first. -/
theorem C3_counterexample :
    tie_f1.importance = 9 / 10 ∧ tie_f2.importance = 3 / 10 ∧
    tie_f1.content = tie_f2.content ∧
    (search_facts tie_store "el rey sabio" 10 0).1 = [] ∧
    (search_facts tie_store "el rey sabio" 10 0).1.head? ≠ some tie_f1 := by
  have hvoc : tv_vocab kb_analyzer 2 17 20 (tie_store.map (·.content)) "el rey sabio" = [] := by
    decide
  have hnone : kb_cosine_sims (tie_store.map (·.content)) "el rey sabio" = none := by
    unfold kb_cosine_sims tfidf_cosine_sims
    rw [if_pos hvoc]
  have hres : (search_facts tie_store "el rey sabio" 10 0).1 = [] := by
    unfold search_facts
    rw [if_neg (by decide), hnone]
  refine ⟨rfl, rfl, by decide, hres, ?_⟩
  rw [hres]
  exact fun h => Option.noConfusion h

/-! ## Claim C4: a query identical to a stored fact -/

set_option maxHeartbeats 2000000 in
/-- C4 (amended): when vectorization succeeds and at least one query term
survives pruning, a fact whose content is identical to the query has cosine
similarity exactly 1.0; it is ranked first provided its importance is
strictly greatest in the store (ranking uses `0.7 * similarity +
0.3 * importance`, so similarity 1.0 alone does not guarantee the top
position; and on corpora where vectorization fails nothing is returned at
all — see the counterexample). -/
theorem C4_exact_match (store : List Fact) (q : String) (lim now : Nat) (F : Fact)
    (h1 : store ≠ [])
    (hok : vectorization_ok kb_analyzer 2 17 20 (store.map (·.content)) q = true)
    (hnd : nodup_ids store) (hF : F ∈ store) (hc : F.content = q)
    (hterm : ∃ t ∈ tv_vocab kb_analyzer 2 17 20 (store.map (·.content)) q, t ∈ kb_analyzer q)
    (himp : ∀ g ∈ store, g ≠ F → g.importance < F.importance)
    (hlim : 1 ≤ lim) :
    tv_sim kb_analyzer 2 17 20 (store.map (·.content)) q F.content = 1 ∧
    (search_facts store q lim now).1.head? = some F := by
  obtain ⟨t0, ht0, htq⟩ := hterm
  have hca : kb_analyzer F.content = kb_analyzer q := by rw [hc]
  have hsim1 : tv_sim kb_analyzer 2 17 20 (store.map (·.content)) q F.content = 1 := by
    apply tv_sim_self_eq_one kb_analyzer 2 17 20 (store.map (·.content)) q F.content hca ht0 htq
  have h2' : tv_vocab kb_analyzer 2 17 20 (store.map (·.content)) q ≠ [] := by
    rw [← vectorization_ok_iff kb_analyzer 2 17 20 (store.map (·.content)) q]
    exact hok
  refine ⟨hsim1, ?_⟩
  apply spec_results_head store q lim now h1 h2' hnd hlim hF
  intro g hg hgne
  unfold combined_score
  rw [hsim1]
  have hgle : tv_sim kb_analyzer 2 17 20 (store.map (·.content)) q g.content ≤ 1 := by
    apply tv_sim_le_one kb_analyzer 2 17 20 (store.map (·.content)) q g.content
  have himpR : (g.importance : ℝ) < (F.importance : ℝ) := by exact_mod_cast himp g hg hgne
  linarith

/-- C4 witness: querying "rey sol" against the store with contents
"rey sol", "rey luna", "sol luna" — the vocabulary survives pruning, the
matching fact has similarity 1.0 and, having the strictly greatest
importance, is ranked first. -/
theorem C4_exact_match_witness :
    exact_f1.content = "rey sol" ∧ exact_f1 ∈ exact_store ∧
    tv_sim kb_analyzer 2 17 20 (exact_store.map (·.content)) "rey sol" exact_f1.content = 1 ∧
    (search_facts exact_store "rey sol" 10 0).1.head? = some exact_f1 := by
  have h := C4_exact_match exact_store "rey sol" 10 0 exact_f1 (by decide) (by decide)
    (by unfold nodup_ids; decide) (by decide) (by decide) (by decide)
    (by
      intro g hg hgne
      rcases List.mem_cons.mp hg with h1 | hg2
      · exact absurd h1 hgne
      rcases List.mem_cons.mp hg2 with h2 | hg3
      · rw [h2]
        norm_num [exact_f2, exact_f1, mkFact]
      rcases List.mem_cons.mp hg3 with h3 | hnil
      · rw [h3]
        norm_num [exact_f3, exact_f1, mkFact]
      · cases hnil)
    (by decide)
  exact ⟨by decide, by decide, h.1, h.2⟩

/-- C4 counterexample: a single-fact corpus queried with exactly that
fact's content.  The two identical documents handed to `fit_transform` give
every term document frequency 2 > 0.85 * 2, vectorization raises, no
similarity (let alone 1.0) is computed, and the fact is not ranked first —
the result list is empty. -/
theorem C4_counterexample :
    single_store ≠ [] ∧ single_store.map (·.content) = ["el sol brilla"] ∧
    kb_cosine_sims (single_store.map (·.content)) "el sol brilla" = none ∧
    (search_facts single_store "el sol brilla" 10 0).1 = [] := by
  have hvoc : tv_vocab kb_analyzer 2 17 20 (single_store.map (·.content)) "el sol brilla"
      = [] := by decide
  have hnone : kb_cosine_sims (single_store.map (·.content)) "el sol brilla" = none := by
    unfold kb_cosine_sims tfidf_cosine_sims
    rw [if_pos hvoc]
  refine ⟨by decide, by decide, hnone, ?_⟩
  unfold search_facts
  rw [if_neg (by decide), hnone]

/-! ## Claim C5: `add_fact` with empty content -/

/-- C5 (amended): `add_fact` performs no validation of `content`.  Called
with the empty string it behaves like any other insert: it stores the row
and returns the fresh id.  The claim's no-raise part holds (the only failure
path is a caught storage exception), but there is no null/sentinel result
and a fact with empty content is stored. -/
theorem C5_add_fact_empty (store : List Fact) (next_id : Nat)
    (category : Option String) (importance : ℚ) (now : Nat) :
    (add_fact store next_id "" category importance now).1 = some next_id ∧
    (add_fact store next_id "" category importance now).2.1.length = store.length + 1 ∧
    ({ id := next_id, content := "", category := category, importance := importance,
       created_at := now, last_accessed := none, access_count := 0 } : Fact)
      ∈ (add_fact store next_id "" category importance now).2.1 := by
  refine ⟨rfl, by simp [add_fact], ?_⟩
  simp [add_fact]

/-- C5 counterexample: on an empty store, `add_fact(content="")` returns
the id 1 (not a null sentinel) and stores one fact whose content is the
empty string, contradicting the claim that the operation fails with no
`FactId` and stores nothing. -/
theorem C5_counterexample :
    (add_fact [] 1 "" none 1 0).1 = some 1 ∧
    (add_fact [] 1 "" none 1 0).1 ≠ none ∧
    (add_fact [] 1 "" none 1 0).2.1 =
      [{ id := 1, content := "", category := none, importance := 1,
         created_at := 0, last_accessed := none, access_count := 0 }] := by
  refine ⟨rfl, ?_, rfl⟩
  intro h
  exact Option.noConfusion h

/-! ## Claim C6: access-stat update of returned facts -/

/-- C6 (confirmed): for every fact returned by a `search_facts` call, the
stored row with that id has its `access_count` incremented by exactly one
and its `last_accessed` set to the call's clock (which is at or after the
call start); all its other fields, and every fact not returned by the call,
are unchanged, and the set of stored ids is untouched.  The increment is
exactly one because the returned ids are distinct (primary keys). -/
theorem C6_access_stats (store : List Fact) (q : String) (lim now t0 : Nat)
    (hnd : nodup_ids store) (ht : t0 ≤ now) :
    (∀ f ∈ (search_facts store q lim now).1,
      ∃ g ∈ (search_facts store q lim now).2,
        g.id = f.id ∧ g.content = f.content ∧ g.category = f.category ∧
        g.importance = f.importance ∧ g.created_at = f.created_at ∧
        g.access_count = f.access_count + 1 ∧
        ∃ t, g.last_accessed = some t ∧ t0 ≤ t) ∧
    (∀ f ∈ store, f.id ∉ (search_facts store q lim now).1.map (·.id) →
      f ∈ (search_facts store q lim now).2) ∧
    (search_facts store q lim now).2.map (·.id) = store.map (·.id) := by
  obtain ⟨hsub, hndres, hupd⟩ := search_facts_general store q lim now hnd
  rw [hupd, update_access_stats_map _ _ _ hndres]
  refine ⟨?_, ?_, ?_⟩
  · intro f hf
    have hfs : f ∈ store := hsub f hf
    have hfid : f.id ∈ (search_facts store q lim now).1.map (·.id) :=
      List.mem_map_of_mem _ hf
    refine ⟨bumpFact f now, ?_, rfl, rfl, rfl, rfl, rfl, rfl, now, rfl, ht⟩
    have himg : (fun f => if f.id ∈ (search_facts store q lim now).1.map (·.id)
        then bumpFact f now else f) f = bumpFact f now := if_pos hfid
    rw [← himg]
    exact List.mem_map_of_mem _ hfs
  · intro f hf hnot
    apply List.mem_map.mpr
    exact ⟨f, hf, if_neg hnot⟩
  · rw [List.map_map]
    apply List.map_congr_left
    intro f _
    simp only [Function.comp_apply]
    by_cases hmem : f.id ∈ (search_facts store q lim now).1.map (·.id)
    · rw [if_pos hmem]
      rfl
    · rw [if_neg hmem]

/-- C6 witness: the id-preservation conjunct applied to a concrete store. -/
theorem C6_access_stats_witness :
    (search_facts single_store "que" 5 5).2.map (·.id) = single_store.map (·.id) :=
  (C6_access_stats single_store "que" 5 5 0 (by unfold nodup_ids; decide) (by decide)).2.2

/-! ## String support lemmas for the resolver -/

theorem string_mk_ne_empty {cs : List Char} (h : cs ≠ []) : String.mk cs ≠ "" := by
  intro he
  exact h (by simpa using String.ext_iff.mp he)

theorem append_ne_empty_left {s : String} (t : String) (hs : s ≠ "") : s ++ t ≠ "" := by
  intro he
  have hd := String.ext_iff.mp he
  rw [String.data_append] at hd
  have : s.data = [] := List.append_eq_nil.mp (by simpa using hd) |>.1
  exact hs (String.ext_iff.mpr (by simpa using this))

theorem getD_mem_of_ne_nil {α : Type} {l : List α} (hne : l ≠ []) (n : Nat) (d : α) :
    l.getD (n % l.length) d ∈ l := by
  have hlen : 0 < l.length := List.length_pos.mpr hne
  have hlt : n % l.length < l.length := Nat.mod_lt n hlen
  rw [List.getD_eq_getElem l d hlt]
  exact List.getElem_mem hlt

theorem random_choice_mem {pick : Nat} {l : List String} {r : String}
    (h : random_choice pick l = .ok r) : r ∈ l := by
  unfold random_choice at h
  by_cases hl : l = []
  · rw [if_pos hl] at h
    cases h
  · rw [if_neg hl] at h
    have : l.getD (pick % l.length) "" = r := by
      have := Except.ok.inj h
      exact this
    rw [← this]
    exact getD_mem_of_ne_nil hl pick ""

theorem table_get_mem {table : List (String × List String)} {k : String}
    {l : List String} (h : table_get table k = some l) :
    ∃ p ∈ table, p.2 = l := by
  unfold table_get at h
  obtain ⟨p, hfind, hpl⟩ := Option.map_eq_some'.mp h
  exact ⟨p, List.mem_of_find?_eq_some hfind, hpl⟩

theorem punct_not_space {c : Char} (h : isPunctChar c = true) : pyIsSpace c = false := by
  unfold isPunctChar at h
  simp only [Bool.or_eq_true, beq_iff_eq] at h
  rcases h with ((((h | h) | h) | h) | h) | h <;> rw [h] <;> decide

theorem mem_rmSpaceBeforePunct {l : List Char} {c : Char} (hc : c ∈ l)
    (hns : pyIsSpace c = false) : c ∈ rmSpaceBeforePunct l := by
  induction l with
  | nil => cases hc
  | cons d cs ih =>
    rcases List.mem_cons.mp hc with h | h
    · subst h
      unfold rmSpaceBeforePunct
      rw [hns]
      simp
    · have hrest := ih h
      unfold rmSpaceBeforePunct
      by_cases hd : pyIsSpace d = true
      · rw [hd]
        simp only
        cases hr : rmSpaceBeforePunct cs with
        | nil => rw [hr] at hrest; cases hrest
        | cons p ps =>
          rw [hr] at hrest
          by_cases hp : isPunctChar p = true
          · simpa [hp] using hrest
          · rw [Bool.not_eq_true] at hp
            simpa [hp] using List.mem_cons_of_mem d hrest
      · rw [Bool.not_eq_true] at hd
        rw [hd]
        simp only [Bool.false_eq_true, if_false]
        exact List.mem_cons_of_mem d hrest

theorem mem_collapseWs {l : List Char} {c : Char} (hc : c ∈ l)
    (hns : pyIsSpace c = false) : c ∈ collapseWs l := by
  induction l with
  | nil => cases hc
  | cons d cs ih =>
    rcases List.mem_cons.mp hc with h | h
    · subst h
      unfold collapseWs
      rw [hns]
      simp
    · have hrest := ih h
      unfold collapseWs
      by_cases hd : pyIsSpace d = true
      · rw [hd]
        simp only
        cases cs with
        | nil => cases h
        | cons e es =>
          by_cases he : pyIsSpace e = true
          · simpa [he] using hrest
          · rw [Bool.not_eq_true] at he
            simpa [he] using List.mem_cons_of_mem ' ' hrest
      · rw [Bool.not_eq_true] at hd
        rw [hd]
        simp only [Bool.false_eq_true, if_false]
        exact List.mem_cons_of_mem d hrest

theorem mem_dropWhile_of_not {l : List Char} {c : Char} (hc : c ∈ l)
    (hns : pyIsSpace c = false) : c ∈ l.dropWhile pyIsSpace := by
  induction l with
  | nil => cases hc
  | cons d cs ih =>
    by_cases hd : pyIsSpace d = true
    · rw [List.dropWhile_cons_of_pos hd]
      rcases List.mem_cons.mp hc with h | h
      · rw [h] at hns
        rw [hns] at hd
        cases hd
      · exact ih h
    · rw [List.dropWhile_cons_of_neg hd]
      exact hc

theorem mem_stripEnds {l : List Char} {c : Char} (hc : c ∈ l)
    (hns : pyIsSpace c = false) : c ∈ stripEnds l := by
  unfold stripEnds
  apply List.mem_reverse.mpr
  apply mem_dropWhile_of_not _ hns
  apply List.mem_reverse.mpr
  exact mem_dropWhile_of_not hc hns

theorem mem_of_getLast? {α : Type} : ∀ {l : List α} {a : α}, l.getLast? = some a → a ∈ l := by
  intro l
  induction l with
  | nil => intro a h; cases h
  | cons x xs ih =>
    intro a h
    cases xs with
    | nil =>
      have : x = a := by simpa [List.getLast?] using h
      rw [this]
      exact List.mem_cons_self a []
    | cons y ys =>
      rw [List.getLast?_cons_cons] at h
      exact List.mem_cons_of_mem x (ih h)

theorem format_response_ne_empty (s : String) (hs : s ≠ "") : format_response s ≠ "" := by
  unfold format_response
  rw [if_neg hs]
  have hpunct : ∃ c, c ∈ (let cs := s.data
      let capitalized := match cs with
        | [] => []
        | c :: rest => c.toUpper :: rest
      if capitalized.getLast? = some '.' ∨ capitalized.getLast? = some '!' ∨
         capitalized.getLast? = some '?' then capitalized
      else capitalized ++ ['.']) ∧ isPunctChar c = true := by
    simp only
    split
    · rename_i hl
      rcases hl with h | h | h
      · exact ⟨'.', mem_of_getLast? h, by decide⟩
      · exact ⟨'!', mem_of_getLast? h, by decide⟩
      · exact ⟨'?', mem_of_getLast? h, by decide⟩
    · exact ⟨'.', List.mem_append.mpr (Or.inr (List.mem_cons_self '.' [])), by decide⟩
  obtain ⟨c, hcmem, hcp⟩ := hpunct
  have hns := punct_not_space hcp
  apply string_mk_ne_empty
  intro hnil
  have : c ∈ stripEnds (collapseWs (rmSpaceBeforePunct _)) :=
    mem_stripEnds (mem_collapseWs (mem_rmSpaceBeforePunct hcmem hns) hns) hns
  rw [hnil] at this
  cases this

theorem fact_response_ne_empty (facts : List Fact) : fact_response facts ≠ "" := by
  have hbase : ∀ body : String, "Su Majestad, basado en mi conocimiento: " ++ body ≠ "" :=
    fun body => append_ne_empty_left body (by decide)
  unfold fact_response
  cases facts with
  | nil => exact hbase ""
  | cons f fs =>
    simp only
    split
    · split
      · exact hbase _
      · exact append_ne_empty_left _ (append_ne_empty_left _ (append_ne_empty_left _ (hbase _)))
    · exact hbase _

/-! ## Non-emptiness of the predefined-response tiers (claim C2) -/

theorem unknown_tier_ok_ne_empty {table : List (String × List String)} {pick : Nat}
    {r : String} (htable : ∀ p ∈ table, ∀ s ∈ p.2, s ≠ "")
    (h : unknown_tier table pick = .ok r) : r ≠ "" := by
  unfold unknown_tier at h
  cases hk : table_get table "unknown" with
  | some l =>
    rw [hk] at h
    obtain ⟨p, hp, hpl⟩ := table_get_mem hk
    exact htable p hp r (hpl ▸ random_choice_mem h)
  | none =>
    rw [hk] at h
    have : no_comprendo = r := Except.ok.inj h
    rw [← this]
    decide

theorem semantic_tier_ok_ne_empty {table : List (String × List String)}
    {log : List Conversation} {pick : Nat} {input : String} {r : String}
    (htable : ∀ p ∈ table, ∀ s ∈ p.2, s ≠ "")
    (h : semantic_tier table log pick input = .ok r) : r ≠ "" := by
  unfold semantic_tier at h
  split at h
  · split at h
    · exact unknown_tier_ok_ne_empty htable h
    · rename_i r0 heq h0
      have : r0 = r := Except.ok.inj h
      rw [← this]
      exact h0
  · exact unknown_tier_ok_ne_empty htable h

theorem farewell_tier_ok_ne_empty {table : List (String × List String)}
    {log : List Conversation} {pick : Nat} {input : String} {r : String}
    (htable : ∀ p ∈ table, ∀ s ∈ p.2, s ≠ "")
    (h : farewell_tier table log pick input = .ok r) : r ≠ "" := by
  unfold farewell_tier at h
  split at h
  · rename_i l hk
    split at h
    · obtain ⟨p, hp, hpl⟩ := table_get_mem hk
      exact htable p hp r (hpl ▸ random_choice_mem h)
    · exact semantic_tier_ok_ne_empty htable h
  · exact semantic_tier_ok_ne_empty htable h

theorem get_predefined_ok_ne_empty {table : List (String × List String)}
    {log : List Conversation} {pick : Nat} {input : String} {r : String}
    (htable : ∀ p ∈ table, ∀ s ∈ p.2, s ≠ "")
    (h : get_predefined_response table log pick input = .ok r) : r ≠ "" := by
  unfold get_predefined_response at h
  split at h
  · rename_i l hk
    split at h
    · obtain ⟨p, hp, hpl⟩ := table_get_mem hk
      exact htable p hp r (hpl ▸ random_choice_mem h)
    · exact farewell_tier_ok_ne_empty htable h
  · exact farewell_tier_ok_ne_empty htable h

theorem predef_or_ne_empty {fallback : String} {table : List (String × List String)}
    {log : List Conversation} {pick : Nat} {input : String}
    (hfb : fallback ≠ "") (htable : ∀ p ∈ table, ∀ s ∈ p.2, s ≠ "") :
    predef_or fallback table log pick input ≠ "" := by
  unfold predef_or
  cases hk : get_predefined_response table log pick input with
  | ok r => exact get_predefined_ok_ne_empty htable hk
  | error e => exact hfb

/-! ## Claim C2: the resolver always returns non-empty text -/

/-- C2 (confirmed): for every query, conversation history, fact store,
randomness, clock, model availability and neural-generation outcome, the
response resolution of `generate_response` returns a non-empty string —
provided every string of the loaded predefined-response table is non-empty
(true of the default table the code itself writes, and vacuously of the
empty table loaded from a corrupt file).  Exceptions never reach the
caller: the model's return type is a plain `String`; every internal failure
(fact search, vectorization, `random.choice` on an empty category list,
the neural pipeline) is caught and replaced by a fallback, mirroring the
`try/except` structure of the source.  Note the semantic tier forwards a
stored response only when it is truthy, so an empty stored
`system_response` cannot surface. -/
theorem C2_generate_response_total (table : List (String × List String))
    (store : List Fact) (log : List Conversation) (input : String)
    (pick now : Nat) (model_ok : Bool) (neural : Except Unit String)
    (htable : ∀ p ∈ table, ∀ s ∈ p.2, s ≠ "") :
    (generate_response table store log input pick now model_ok neural).1 ≠ "" := by
  unfold generate_response
  by_cases hg : lower_str input ∈ exact_greetings
  · rw [if_pos hg]
    decide
  · rw [if_neg hg]
    by_cases hf : (search_facts store input 3 now).1 ≠ []
    · rw [if_pos hf]
      exact fact_response_ne_empty _
    · rw [if_neg hf]
      by_cases hm : model_ok = false
      · rw [if_pos hm]
        exact predef_or_ne_empty (by decide) htable
      · rw [if_neg hm]
        split
        · exact predef_or_ne_empty (by decide) htable
        · split
          · exact predef_or_ne_empty (by decide) htable
          · rename_i hshort
            push_neg at hshort
            exact format_response_ne_empty _ hshort.2

/-- C2 witness: the default predefined-response table satisfies the
non-emptiness hypothesis, and a concrete resolution call returns non-empty
text. -/
theorem C2_generate_response_total_witness :
    (∀ p ∈ default_responses, ∀ s ∈ p.2, s ≠ "") ∧
    (generate_response default_responses [] [] "xyzzy" 0 0 false (.error ())).1 ≠ "" :=
  ⟨by decide,
   C2_generate_response_total default_responses [] [] "xyzzy" 0 0 false (.error ())
     (by decide)⟩

/-! ## Claim C7: greeting keywords and the fact tier -/

/-- C7 (amended): only a query whose lowercased text is *exactly* one of
the greeting literals bypasses fact search: for those,
`generate_response` returns the fixed greeting reply (a member of the
default greeting set) without invoking `search_facts`.  A query that merely
*contains* a greeting substring proceeds to fact search first; the greeting
set is only consulted later, inside the `get_predefined_response` fallback
(see the counterexample). -/
theorem C7_exact_greeting_bypass (table : List (String × List String))
    (store : List Fact) (log : List Conversation) (input : String)
    (pick now : Nat) (model_ok : Bool) (neural : Except Unit String)
    (h : lower_str input ∈ exact_greetings) :
    generate_response table store log input pick now model_ok neural = (saludos_reply, false) ∧
    saludos_reply ∈ (table_get default_responses "greeting").getD [] := by
  constructor
  · unfold generate_response
    rw [if_pos h]
  · decide

/-- C7 witness: the exact greeting "Hola" bypasses fact search. -/
theorem C7_exact_greeting_bypass_witness :
    generate_response default_responses [] [] "Hola" 0 0 false (.error ()) =
      (saludos_reply, false) :=
  (C7_exact_greeting_bypass default_responses [] [] "Hola" 0 0 false (.error ())
    (by decide)).1

/-- C7 counterexample: the query "hola amigo" contains the greeting keyword
"hola" as a substring, and the resolver does return a reply from the
greeting set — but `search_facts` *was* invoked during the call (the
second component of the instrumented result is `true`), contradicting the
claim that fact search is bypassed for every query containing a greeting
keyword substring. -/
theorem C7_counterexample :
    (greeting_patterns.any fun p => containsSub (lower_str "hola amigo") p) = true ∧
    (generate_response default_responses [] [] "hola amigo" 0 0 false (.error ())).2 = true ∧
    (generate_response default_responses [] [] "hola amigo" 0 0 false (.error ())).1
      ∈ (table_get default_responses "greeting").getD [] := by
  refine ⟨by decide, ?_, ?_⟩ <;> decide

/-! ## Claim C10: greeting keywords are checked before farewell keywords -/

/-- C10 (confirmed): in `get_predefined_response` the greeting loop runs
before the farewell loop, so for every input whose lowercased text contains
both a greeting keyword and a farewell keyword, the returned reply is drawn
from the greeting response set (provided the `"greeting"` key is present
with at least one reply — on an empty list `random.choice` raises). -/
theorem C10_greeting_precedence (table : List (String × List String))
    (log : List Conversation) (pick : Nat) (input : String) (l : List String)
    (hg : (greeting_patterns.any fun p => containsSub (lower_str input) p) = true)
    (_hf : (farewell_patterns.any fun p => containsSub (lower_str input) p) = true)
    (hl : table_get table "greeting" = some l) (hne : l ≠ []) :
    ∃ r ∈ l, get_predefined_response table log pick input = .ok r := by
  refine ⟨l.getD (pick % l.length) "", getD_mem_of_ne_nil hne pick "", ?_⟩
  unfold get_predefined_response
  simp only [hl]
  rw [if_pos hg]
  unfold random_choice
  rw [if_neg hne]

/-! ## Claim C8: the conversation-history tier -/

theorem argmaxAux_spec : ∀ (xs L : List ℝ) (i bi : Nat) (bv : ℝ),
    L.drop i = xs → bi < L.length → L.getD bi 0 = bv →
    (argmaxAux i bi bv xs).1 < L.length ∧
    L.getD (argmaxAux i bi bv xs).1 0 = (argmaxAux i bi bv xs).2 ∧
    bv ≤ (argmaxAux i bi bv xs).2 ∧
    ∀ x ∈ xs, x ≤ (argmaxAux i bi bv xs).2 := by
  intro xs
  induction xs with
  | nil =>
    intro L i bi bv hdrop hbi hget
    exact ⟨hbi, hget, le_refl _, fun x hx => absurd hx (List.not_mem_nil x)⟩
  | cons x xs ih =>
    intro L i bi bv hdrop hbi hget
    have hlen : (L.drop i).length = xs.length + 1 := by rw [hdrop]; rfl
    have hi : i < L.length := by
      rw [List.length_drop] at hlen
      omega
    have hgetDi : L.getD i 0 = x := by
      have h0 : (L.drop i)[0]? = some x := by rw [hdrop]; simp
      rw [List.getElem?_drop, Nat.add_zero] at h0
      rw [List.getD_eq_getElem?_getD, h0]
      rfl
    have hdrop1 : L.drop (i + 1) = xs := by
      have hdd := List.drop_drop 1 i L
      rw [hdrop] at hdd
      exact hdd.symm
    unfold argmaxAux
    by_cases hlt : bv < x
    · rw [if_pos hlt]
      obtain ⟨p1, p2, p3, p4⟩ := ih L (i + 1) i x hdrop1 hi hgetDi
      refine ⟨p1, p2, le_trans (le_of_lt hlt) p3, ?_⟩
      intro y hy
      rcases List.mem_cons.mp hy with h | h
      · rw [h]
        exact p3
      · exact p4 y h
    · rw [if_neg hlt]
      obtain ⟨p1, p2, p3, p4⟩ := ih L (i + 1) bi bv hdrop1 hbi hget
      refine ⟨p1, p2, p3, ?_⟩
      intro y hy
      rcases List.mem_cons.mp hy with h | h
      · rw [h]
        exact le_trans (not_lt.mp hlt) p3
      · exact p4 y h

/-- Lemma that `np.argmax` returns an in-range index of a maximal element. -/
theorem argmaxIdx_spec (l : List ℝ) (hne : l ≠ []) :
    argmaxIdx l < l.length ∧ ∀ x ∈ l, x ≤ l.getD (argmaxIdx l) 0 := by
  cases l with
  | nil => exact absurd rfl hne
  | cons x xs =>
    obtain ⟨p1, p2, p3, p4⟩ := argmaxAux_spec xs (x :: xs) 1 0 x rfl (by simp) rfl
    unfold argmaxIdx
    refine ⟨p1, ?_⟩
    intro y hy
    rw [p2]
    rcases List.mem_cons.mp hy with h | h
    · rw [h]
      exact p3
    · exact p4 y h

theorem tfidf_cosine_sims_length {analyzer : String → List String} {a b c : Nat}
    {contents : List String} {q : String} {sims : List ℝ}
    (h : tfidf_cosine_sims analyzer a b c contents q = some sims) :
    sims.length = contents.length := by
  unfold tfidf_cosine_sims at h
  split at h
  · cases h
  · have := Option.some_inj.mp h
    rw [← this, List.length_map]

set_option maxHeartbeats 1000000 in
/-- C8 (confirmed): the conversation-history tier is attempted only with at
least 5 available turns (the `ORDER BY timestamp DESC LIMIT 100` window):
below that it yields no result, so resolution (in
`get_predefined_response`) proceeds to the unknown tier.  When it runs and
vectorization succeeds, it returns exactly the stored `system_response` of
the most similar past turn — the first index attaining the maximal cosine
similarity (`np.argmax`) — precisely when that similarity exceeds 0.6. -/
theorem C8_semantic_tier (log : List Conversation) (q : String) :
    ((log.reverse.take 100).length < 5 → get_semantic_response log q = none) ∧
    (∀ sims : List ℝ, 5 ≤ (log.reverse.take 100).length →
      conv_cosine_sims ((log.reverse.take 100).map (·.user_input)) q = some sims →
      ((∀ x ∈ sims, x ≤ sims.getD (argmaxIdx sims) 0) ∧
       ∀ r : String, (get_semantic_response log q = some r ↔
         (0.6 < sims.getD (argmaxIdx sims) 0 ∧
          r = ((log.reverse.take 100).getD (argmaxIdx sims)
                ⟨0, "", "", 0, 0⟩).system_response)))) := by
  constructor
  · intro hlen
    unfold get_semantic_response
    by_cases hnil : log.reverse.take 100 = []
    · rw [if_pos hnil]
    · rw [if_neg hnil, if_neg (by omega)]
  · intro sims hlen hsims
    have hne : log.reverse.take 100 ≠ [] := by
      intro hc
      rw [hc] at hlen
      simp at hlen
    have hsimsne : sims ≠ [] := by
      have hslen : sims.length = ((log.reverse.take 100).map (·.user_input)).length :=
        tfidf_cosine_sims_length hsims
      rw [List.length_map] at hslen
      intro hc
      rw [hc] at hslen
      simp only [List.length_nil] at hslen
      omega
    constructor
    · exact (argmaxIdx_spec sims hsimsne).2
    · intro r
      unfold get_semantic_response
      rw [if_neg hne, if_pos hlen]
      simp only [hsims]
      by_cases hth : (0.6 : ℝ) < sims.getD (argmaxIdx sims) 0
      · rw [if_pos hth]
        constructor
        · intro h
          exact ⟨hth, (Option.some_inj.mp h).symm⟩
        · intro h
          rw [h.2]
      · rw [if_neg hth]
        constructor
        · intro h
          cases h
        · intro h
          exact absurd h.1 hth

/-- C8 witness: with only three stored turns the semantic tier yields no
result. -/
theorem C8_semantic_tier_witness :
    get_semantic_response
      [⟨1, "uno", "r1", 1, 0⟩, ⟨2, "dos", "r2", 2, 0⟩, ⟨3, "tres", "r3", 3, 0⟩] "uno" = none :=
  (C8_semantic_tier
    [⟨1, "uno", "r1", 1, 0⟩, ⟨2, "dos", "r2", 2, 0⟩, ⟨3, "tres", "r3", 3, 0⟩] "uno").1
    (by decide)

/-- C10 witness: "hola adiós" contains both a greeting and a farewell
keyword; the reply comes from the default greeting set. -/
theorem C10_greeting_precedence_witness :
    ∃ r ∈ (("greeting", ["Saludos, Su Majestad. ¿En qué puedo servirle hoy?",
        "A sus órdenes, Mi Rey. ¿Cómo puedo asistirle?",
        "Es un honor atenderle, Su Majestad. Estoy a su disposición."]) :
          String × List String).2,
      get_predefined_response default_responses [] 0 "hola adiós" = .ok r :=
  C10_greeting_precedence default_responses [] 0 "hola adiós" _
    (by decide) (by decide) (by decide) (by decide)

/-! ## Claim C9: fact-store invariants along operation traces -/

theorem update_access_stats_preserves (ids : List Nat) (now : Nat) (store : List Fact) :
    ∀ f ∈ store, ∃ g ∈ update_access_stats store ids now,
      g.id = f.id ∧ g.content = f.content ∧ g.category = f.category ∧
      g.importance = f.importance ∧ g.created_at = f.created_at ∧
      f.access_count ≤ g.access_count := by
  obtain ⟨F, hF, hprops⟩ := update_access_stats_shape ids now store
  intro f hf
  obtain ⟨p1, p2, p3, p4, p5, p6⟩ := hprops f
  exact ⟨F f, hF ▸ List.mem_map_of_mem F hf, p1, p2, p3, p4, p5, p6⟩

theorem update_access_stats_ids (ids : List Nat) (now : Nat) (store : List Fact) :
    (update_access_stats store ids now).map (·.id) = store.map (·.id) := by
  obtain ⟨F, hF, hprops⟩ := update_access_stats_shape ids now store
  rw [hF, List.map_map]
  apply List.map_congr_left
  intro f _
  exact (hprops f).1

theorem searchFacts_snd_eq (store : List Fact) (q : String) (lim now : Nat)
    (hnd : nodup_ids store) :
    (search_facts store q lim now).2 =
      update_access_stats store ((search_facts store q lim now).1.map (·.id)) now :=
  (search_facts_general store q lim now hnd).2.2

theorem mem_update_access_stats {store : List Fact} {ids : List Nat} {now : Nat} {f : Fact}
    (hf : f ∈ update_access_stats store ids now) :
    ∃ g ∈ store, f.id = g.id ∧ f.content = g.content ∧ f.category = g.category ∧
      f.importance = g.importance ∧ f.created_at = g.created_at ∧
      g.access_count ≤ f.access_count := by
  obtain ⟨F, hF, hprops⟩ := update_access_stats_shape ids now store
  rw [hF] at hf
  obtain ⟨g, hg, hgf⟩ := List.mem_map.mp hf
  obtain ⟨p1, p2, p3, p4, p5, p6⟩ := hprops g
  subst hgf
  exact ⟨g, hg, p1, p2, p3, p4, p5, p6⟩

theorem applyOp_inv {s : KBState} (h : kb_inv s) (op : KBOp) : kb_inv (applyOp s op) := by
  obtain ⟨h1, h2, h3⟩ := h
  unfold kb_inv
  cases op with
  | addFact content category importance now =>
    simp only [applyOp, add_fact]
    refine ⟨?_, ?_, ?_⟩
    · intro f hf
      rcases List.mem_append.mp hf with hold | hnew
      · exact Nat.lt_succ_of_lt (h1 f hold)
      · have he : f.id = s.next_id := by
          rcases List.mem_cons.mp hnew with h | h
          · rw [h]
          · cases h
        rw [he]
        exact Nat.lt_succ_self _
    · unfold nodup_ids
      rw [List.map_append]
      refine List.Nodup.append h2 (by simp) ?_
      intro a ha hb
      have ha2 : a < s.next_id := by
        obtain ⟨f, hf, hfa⟩ := List.mem_map.mp ha
        rw [← hfa]
        exact h1 f hf
      have hb2 : a = s.next_id := by
        simpa using hb
      omega
    · intro f hf
      rcases List.mem_append.mp hf with hold | hnew
      · exact h3 f hold
      · have he : f.access_count = 0 := by
          rcases List.mem_cons.mp hnew with h | h
          · rw [h]
          · cases h
        omega
  | searchFacts q lim now =>
    simp only [applyOp]
    have heq := searchFacts_snd_eq s.store q lim now h2
    rw [heq]
    refine ⟨?_, ?_, ?_⟩
    · intro f hf
      obtain ⟨g, hg, p1, _, _, _, _, _⟩ := mem_update_access_stats hf
      rw [p1]
      exact h1 g hg
    · unfold nodup_ids
      rw [update_access_stats_ids]
      exact h2
    · intro f hf
      obtain ⟨g, hg, _, _, _, _, _, p6⟩ := mem_update_access_stats hf
      exact le_trans (h3 g hg) p6
  | getByCategory category now =>
    simp only [applyOp, get_facts_by_category]
    refine ⟨?_, ?_, ?_⟩
    · intro f hf
      obtain ⟨g, hg, p1, _, _, _, _, _⟩ := mem_update_access_stats hf
      rw [p1]
      exact h1 g hg
    · unfold nodup_ids
      rw [update_access_stats_ids]
      exact h2
    · intro f hf
      obtain ⟨g, hg, _, _, _, _, _, p6⟩ := mem_update_access_stats hf
      exact le_trans (h3 g hg) p6

theorem runOps_inv (ops : List KBOp) : ∀ s : KBState, kb_inv s → kb_inv (runOps s ops) := by
  induction ops with
  | nil => intro s h; exact h
  | cons op ops ih =>
    intro s h
    exact ih (applyOp s op) (applyOp_inv h op)

theorem initKB_inv : kb_inv initKB :=
  ⟨fun f hf => absurd hf (List.not_mem_nil f), List.nodup_nil,
   fun f hf => absurd hf (List.not_mem_nil f)⟩

theorem applyOp_importance {s : KBState} (op : KBOp) (hinv : kb_inv s)
    (hs : ∀ f ∈ s.store, 0 ≤ f.importance ∧ f.importance ≤ 1)
    (hop : importance_ok op = true) :
    ∀ f ∈ (applyOp s op).store, 0 ≤ f.importance ∧ f.importance ≤ 1 := by
  cases op with
  | addFact content category importance now =>
    simp only [applyOp, add_fact]
    intro f hf
    rcases List.mem_append.mp hf with hold | hnew
    · exact hs f hold
    · have he : f.importance = importance := by
        rcases List.mem_cons.mp hnew with h | h
        · rw [h]
        · cases h
      rw [he]
      simpa [importance_ok] using hop
  | searchFacts q lim now =>
    simp only [applyOp]
    have heq := searchFacts_snd_eq s.store q lim now hinv.2.1
    rw [heq]
    intro f hf
    obtain ⟨g, hg, _, _, _, p4, _, _⟩ := mem_update_access_stats hf
    rw [p4]
    exact hs g hg
  | getByCategory category now =>
    simp only [applyOp, get_facts_by_category]
    intro f hf
    obtain ⟨g, hg, _, _, _, p4, _, _⟩ := mem_update_access_stats hf
    rw [p4]
    exact hs g hg

theorem runOps_importance (ops : List KBOp) : ∀ s : KBState, kb_inv s →
    (∀ f ∈ s.store, 0 ≤ f.importance ∧ f.importance ≤ 1) →
    (∀ op ∈ ops, importance_ok op = true) →
    ∀ f ∈ (runOps s ops).store, 0 ≤ f.importance ∧ f.importance ≤ 1 := by
  induction ops with
  | nil => intro s _ hs _; exact hs
  | cons op ops ih =>
    intro s hinv hs hops
    exact ih (applyOp s op) (applyOp_inv hinv op)
      (applyOp_importance op hinv hs (hops op (List.mem_cons_self op ops)))
      fun o ho => hops o (List.mem_cons_of_mem op ho)

theorem applyOp_persist {s : KBState} (hinv : kb_inv s) (op : KBOp) :
    ∀ f ∈ s.store, ∃ g ∈ (applyOp s op).store,
      g.id = f.id ∧ g.content = f.content ∧ g.category = f.category ∧
      g.importance = f.importance ∧ g.created_at = f.created_at := by
  cases op with
  | addFact content category importance now =>
    intro f hf
    refine ⟨f, ?_, rfl, rfl, rfl, rfl, rfl⟩
    simp only [applyOp, add_fact]
    exact List.mem_append.mpr (Or.inl hf)
  | searchFacts q lim now =>
    have heq := searchFacts_snd_eq s.store q lim now hinv.2.1
    intro f hf
    obtain ⟨g, hg, p1, p2, p3, p4, p5, _⟩ := update_access_stats_preserves
      ((search_facts s.store q lim now).1.map (·.id)) now s.store f hf
    refine ⟨g, ?_, p1, p2, p3, p4, p5⟩
    simp only [applyOp]
    rw [heq]
    exact hg
  | getByCategory category now =>
    intro f hf
    obtain ⟨g, hg, p1, p2, p3, p4, p5, _⟩ := update_access_stats_preserves
      (((s.store.filter fun f => f.category == some category).mergeSort
        fun a b => decide (b.importance ≤ a.importance)).map (·.id)) now s.store f hf
    refine ⟨g, ?_, p1, p2, p3, p4, p5⟩
    simp only [applyOp, get_facts_by_category]
    exact hg

theorem runOps_persist (ops : List KBOp) : ∀ s : KBState, kb_inv s →
    ∀ f ∈ s.store, ∃ g ∈ (runOps s ops).store,
      g.id = f.id ∧ g.content = f.content ∧ g.category = f.category ∧
      g.importance = f.importance ∧ g.created_at = f.created_at := by
  induction ops with
  | nil => intro s _ f hf; exact ⟨f, hf, rfl, rfl, rfl, rfl, rfl⟩
  | cons op ops ih =>
    intro s hinv f hf
    obtain ⟨g, hg, p1, p2, p3, p4, p5⟩ := applyOp_persist hinv op f hf
    obtain ⟨h, hh, q1, q2, q3, q4, q5⟩ := ih (applyOp s op) (applyOp_inv hinv op) g hg
    exact ⟨h, hh, q1.trans p1, q2.trans p2, q3.trans p3, q4.trans p4, q5.trans p5⟩

/-- C9 (amended): on every state reachable from a fresh store by `add_fact`,
`search_facts` and `get_facts_by_category` operations, the stored ids are
distinct and never reused (every stored fact persists with its id, content,
category, importance and creation time under any further operations), and
every `access_count` is non-negative.  The importance-range invariant
`importance ∈ [0, 1]`, however, holds only conditionally: `add_fact` stores
whatever importance the caller passes, with no validation (see the
counterexample with importance 2), so the invariant holds exactly when
every `add_fact` call of the trace respected the range. -/
theorem C9_store_invariants (ops : List KBOp) :
    nodup_ids (runOps initKB ops).store ∧
    (∀ f ∈ (runOps initKB ops).store, 0 ≤ f.access_count) ∧
    ((∀ op ∈ ops, importance_ok op = true) →
      ∀ f ∈ (runOps initKB ops).store, 0 ≤ f.importance ∧ f.importance ≤ 1) ∧
    (∀ more : List KBOp, ∀ f ∈ (runOps initKB ops).store,
      ∃ g ∈ (runOps (runOps initKB ops) more).store,
        g.id = f.id ∧ g.content = f.content ∧ g.category = f.category ∧
        g.importance = f.importance ∧ g.created_at = f.created_at) := by
  have hinv := runOps_inv ops initKB initKB_inv
  refine ⟨hinv.2.1, hinv.2.2, ?_, ?_⟩
  · intro hops
    exact runOps_importance ops initKB initKB_inv (fun f hf => absurd hf (List.not_mem_nil f))
      hops
  · intro more
    exact runOps_persist more (runOps initKB ops) hinv

/-- C9 witness: a trace of one in-range `add_fact` call; the stored fact's
importance lies in `[0, 1]` by the conditional invariant. -/
theorem C9_store_invariants_witness :
    0 ≤ (mkFact 1 "sol" 1).importance ∧ (mkFact 1 "sol" 1).importance ≤ 1 := by
  have happ := (C9_store_invariants [KBOp.addFact "sol" none 1 0]).2.2.1
  apply happ
  · intro op hop
    rcases List.mem_cons.mp hop with h | h
    · rw [h]
      simp only [importance_ok, decide_eq_true_eq]
      norm_num
    · cases h
  · show mkFact 1 "sol" 1 ∈ [mkFact 1 "sol" 1]
    exact List.mem_cons_self _ _

/-- C9 counterexample: `add_fact` stores an importance of 2 unvalidated —
the state reached by the single call `add_fact("el sol", importance=2)`
contains a fact violating `importance ∈ [0, 1]`. -/
theorem C9_counterexample :
    ∃ f ∈ (runOps initKB [KBOp.addFact "el sol" none 2 0]).store,
      ¬(f.importance ≤ 1) := by
  refine ⟨⟨1, "el sol", none, 2, 0, none, 0⟩, ?_, ?_⟩
  · show _ ∈ [(⟨1, "el sol", none, 2, 0, none, 0⟩ : Fact)]
    exact List.mem_cons_self _ _
  · norm_num

end Proyecto
